import Mathlib

/-!
Verification of the Smith-Pharmacy image-scraping pipeline
(`src/barcode_image_url_finder.py`, with the key normalizer also present in
`src/html_barcode_image_fetcher.py`).

The Python code is shallowly embedded as executable Lean definitions:

* JSON values returned by the OpenFacts APIs become the inductive `J`;
  HTTP outcomes of a single `requests.get` become `FetchResp`
  (network failure, or a status code with an optional parsed JSON body —
  `none` standing for a body that fails JSON decoding).
* `fetch_openfacts_product`, `pick_best_image_url` and
  `find_image_url_zero_cost` are translated line by line; the retry loop of
  `find_image_url_zero_cost` additionally records a trace of `FEvent`s
  (which attempt was issued, and each `time.sleep` politeness delay) so
  that retry/delay claims can be stated.  The network itself is abstracted
  by an oracle `Nat → Nat → FetchResp` giving the response of source `s`
  at attempt `a` for the fixed barcode of one invocation.
* `process_csv` is embedded as a pure state-machine over `PS`: the in-run
  cache, the pending batch, the progress-output file and checkpoint file
  contents, and a trace of `Event`s (adapter invocation, data append,
  checkpoint write).  CSV rows are association lists `Row`.
-/

/-! ## Rows (Python `Dict[str, str]` from `csv.DictReader`) -/

/-- One CSV row: an ordered association of column name to string value
(Python dict, insertion-ordered, unique keys). -/
abbrev Row := List (String × String)

/-- Python `row.get(k)`: value of the first (only) binding of `k`. -/
def rowGet (r : Row) (k : String) : Option String :=
  (r.find? (fun p => p.1 == k)).map (fun p => p.2)

/-- Python `new_row = dict(row); new_row[k] = v`: overwrite the binding of
`k` in place if present, otherwise append it at the end (dict insertion
order). -/
def rowSet (r : Row) (k v : String) : Row :=
  if r.any (fun p => p.1 == k) then
    r.map (fun p => if p.1 == k then (k, v) else p)
  else
    r ++ [(k, v)]

/-! ## Key normalizer (`normalize_barcode`, lines 25-27 of
`barcode_image_url_finder.py` and lines 15-16 of
`html_barcode_image_fetcher.py`)

Python's `str.isdigit` is modelled by `Char.isDigit` (ASCII `0`-`9`),
the alphabet of the barcodes this tool processes; the `raw or ""`
`None`-guard has no counterpart because Lean strings are never null. -/

/-- `normalize_barcode` from `barcode_image_url_finder.py`:
keep only digit characters, in order. -/
def normalize_barcode (raw : String) : String :=
  String.mk (raw.data.filter Char.isDigit)

/-- `normalize_barcode` from `html_barcode_image_fetcher.py`
(textually identical to the finder's). -/
def normalize_barcode_html (raw : String) : String :=
  String.mk (raw.data.filter Char.isDigit)

/-- The "no key" sentinel: the empty string.  `process_csv` tests the
normalized key for truthiness (`if norm:`), so the empty result of
normalization is exactly the value that suppresses all lookups. -/
def NOKEY : String := ""

/-! ## JSON values and a single HTTP fetch -/

/-- JSON-ish values as far as the code inspects them.  `other` stands for
values of any shape the code only ever type-tests negatively (arrays,
null, floats). -/
inductive J
  | str (s : String)
  | num (n : Int)
  | bool (b : Bool)
  | dict (entries : List (String × J))
  | other

/-- Python `d.get(k)` on a JSON object. -/
def jget (d : List (String × J)) (k : String) : Option J :=
  (d.find? (fun p => p.1 == k)).map (fun p => p.2)

/-- Outcome of one `requests.get` of a product URL: a network-level
exception, or a status code together with the parsed JSON body
(`none` when `resp.json()` raises `JSONDecodeError`). -/
inductive FetchResp
  | netError
  | mk (status : Nat) (body : Option J)

/-- Python `data.get("status") == 1` (JSON `true` compares equal to `1`
in Python). -/
def statusFieldIsOne : Option J → Bool
  | some (J.num n) => n == 1
  | some (J.bool b) => b
  | _ => false

/-- `fetch_openfacts_product` (lines 69-89): `404 → None`; other 4xx/5xx
raise in `raise_for_status` and are caught as `RequestException → None`;
a non-dict body, a JSON decode error, `status != 1` or a non-dict
`product` field all yield `None`; otherwise the `product` dict. -/
def fetch_openfacts_product (r : FetchResp) : Option (List (String × J)) :=
  match r with
  | FetchResp.netError => none
  | FetchResp.mk status body =>
    if status == 404 then none
    else if 400 ≤ status ∧ status < 600 then none
    else
      match body with
      | some (J.dict data) =>
        if statusFieldIsOne (jget data "status") then
          match jget data "product" with
          | some (J.dict p) => some p
          | _ => none
        else none
      | _ => none

/-! ## `pick_best_image_url` (lines 30-66) -/

/-- Leading-whitespace removal on a character list. -/
def dropLeadingWS : List Char → List Char
  | [] => []
  | c :: cs => if c.isWhitespace then dropLeadingWS cs else c :: cs

/-- Python `s.strip()`: remove leading and trailing whitespace.  (Defined
structurally on the character list so that it evaluates by kernel
reduction; `String.trim` itself is well-founded-recursive.) -/
def pyStrip (s : String) : String :=
  String.mk (((dropLeadingWS s.data).reverse |> dropLeadingWS).reverse)

/-- Python `isinstance(url, str) and url.strip()`, yielding the stripped
string when truthy. -/
def stripNonempty (v : J) : Option String :=
  match v with
  | J.str s => if pyStrip s == "" then none else some (pyStrip s)
  | _ => none

/-- The `preferred_keys` list (lines 32-40). -/
def preferredImageKeys : List String :=
  ["image_front_url", "image_url", "image_pack_url", "image_ingredients_url",
   "image_nutrition_url", "image_small_url", "image_thumb_url"]

/-- First preferred key holding a non-blank string (lines 42-45). -/
def firstPreferredImage (product : List (String × J)) : List String → Option String
  | [] => none
  | k :: ks =>
    match (jget product k).bind stripNonempty with
    | some u => some u
    | none => firstPreferredImage product ks

/-- Insertion step of a stable sort of dict items by key, modelling
Python `sorted(sz.items())` (keys are unique, so tuple comparison is
decided by the key). -/
def insertByKey (p : String × J) : List (String × J) → List (String × J)
  | [] => [p]
  | q :: qs => if p.1 ≤ q.1 then p :: q :: qs else q :: insertByKey p qs

/-- Python `sorted(sz.items())`. -/
def sortByKey (l : List (String × J)) : List (String × J) :=
  l.foldr insertByKey []

/-- The `for _, candidate in sorted(sz.items())` loop (lines 62-64). -/
def firstValidCandidate : List (String × J) → Option String
  | [] => none
  | (_, v) :: rest =>
    match stripNonempty v with
    | some u => some u
    | none => firstValidCandidate rest

/-- Lines 59-64: prefer a non-blank `"en"` entry, else the first non-blank
string in key-sorted order. -/
def pickFromSizeDict (sz : List (String × J)) : Option String :=
  match (if sz.any (fun p => p.1 == "en") then (jget sz "en").bind stripNonempty else none) with
  | some u => some u
  | none => firstValidCandidate (sortByKey sz)

def sizeKeys : List String := ["display", "small", "thumb"]

def sectionKeys : List String := ["front", "ingredients", "nutrition"]

/-- The `for size in ("display", "small", "thumb")` loop (lines 55-64). -/
def pickFromSectionDict (sec : List (String × J)) : List String → Option String
  | [] => none
  | szK :: rest =>
    match jget sec szK with
    | some (J.dict sz) =>
      (match pickFromSizeDict sz with
       | some u => some u
       | none => pickFromSectionDict sec rest)
    | _ => pickFromSectionDict sec rest

/-- The `for section in ("front", "ingredients", "nutrition")` loop
(lines 51-64). -/
def pickFromSelected (sel : List (String × J)) : List String → Option String
  | [] => none
  | secK :: rest =>
    match jget sel secK with
    | some (J.dict sec) =>
      (match pickFromSectionDict sec sizeKeys with
       | some u => some u
       | none => pickFromSelected sel rest)
    | _ => pickFromSelected sel rest

/-- `pick_best_image_url` (lines 30-66). -/
def pick_best_image_url (product : List (String × J)) : Option String :=
  match firstPreferredImage product preferredImageKeys with
  | some u => some u
  | none =>
    match jget product "selected_images" with
    | some (J.dict sel) => pickFromSelected sel sectionKeys
    | _ => none

/-! ## `find_image_url_zero_cost` (lines 92-107)

The oracle `o : Nat → Nat → FetchResp` gives the HTTP outcome of source
`s` (index into `OPEN_FACTS_SOURCES`) at attempt `a`, for the one barcode
of this invocation.  The trace records every issued attempt and every
`time.sleep(per_source_delay_s)` politeness delay. -/

/-- `OPEN_FACTS_SOURCES` (lines 18-22). -/
def OPEN_FACTS_SOURCES : List (String × String) :=
  [("world.openfoodfacts.org", "openfoodfacts"),
   ("world.openbeautyfacts.org", "openbeautyfacts"),
   ("world.openpetfoodfacts.org", "openpetfoodfacts")]

/-- Events of the retry harness: one single-shot query attempt, or one
politeness delay of the configured `per_source_delay_s`. -/
inductive FEvent
  | attempt (source att : Nat)
  | sleep
deriving DecidableEq, Repr

/-- The body of one attempt (lines 98-104): fetch, then — only when the
product dict is truthy, i.e. nonempty — pick an image URL. -/
def attemptResult (r : FetchResp) : Option String :=
  match fetch_openfacts_product r with
  | some p => if p.isEmpty then none else pick_best_image_url p
  | none => none

/-- The `for attempt in range(retries)` loop (lines 95-106) for source
`s`, starting at attempt index `att` with `fuel` attempts left: a
successful attempt returns at once, any other attempt is followed by
`time.sleep` and the next attempt. -/
def trySourceGo (o : Nat → Nat → FetchResp) (s : Nat) :
    Nat → Nat → Option String × List FEvent
  | _, 0 => (none, [])
  | att, fuel + 1 =>
    match attemptResult (o s att) with
    | some img => (some img, [FEvent.attempt s att])
    | none =>
      let rest := trySourceGo o s (att + 1) fuel
      (rest.1, FEvent.attempt s att :: FEvent.sleep :: rest.2)

/-- One source's whole attempt sequence. -/
def trySource (o : Nat → Nat → FetchResp) (s retries : Nat) :
    Option String × List FEvent :=
  trySourceGo o s 0 retries

/-- The `for host, source_name in OPEN_FACTS_SOURCES` loop (lines
94-106), over the index-decorated source list. -/
def findGo (o : Nat → Nat → FetchResp) (retries : Nat) :
    List (Nat × String × String) → (Option String × Option String) × List FEvent
  | [] => ((none, none), [])
  | (i, _, srcName) :: rest =>
    let t := trySource o i retries
    match t.1 with
    | some img => ((some img, some srcName), t.2)
    | none =>
      let w := findGo o retries rest
      (w.1, t.2 ++ w.2)

/-- `find_image_url_zero_cost` (lines 92-107): result `(img?, source?)`
plus the attempt/sleep trace. -/
def find_image_url_zero_cost (o : Nat → Nat → FetchResp) (retries : Nat) :
    (Option String × Option String) × List FEvent :=
  findGo o retries OPEN_FACTS_SOURCES.enum

/-! ## The pipeline orchestrator `process_csv` (lines 126-245)

Paths and printing are irrelevant to the claims; the file system is
modelled as the contents of the progress-output file (`none` when the
file does not exist, `some rows` for its data rows, the header being
present whenever the file is) and of the checkpoint file. -/

/-- Contents of the checkpoint file: missing, unreadable/corrupt (any
state in which `json.load` / `int(...)` raises), or a readable
`{"processed_count": n}`. -/
inductive CkptFile
  | absent
  | corrupt
  | valid (n : Nat)
deriving DecidableEq, Repr

/-- The two files `process_csv` owns. -/
structure FS where
  outFile : Option (List Row)
  ckptFile : CkptFile
deriving DecidableEq, Repr

/-- Lines 161-172: the checkpoint is read only under `--resume`; a
missing or corrupt file is swallowed by `except Exception` and leaves
`start_index = 0`. -/
def loadCheckpoint (resume : Bool) (c : CkptFile) : Nat :=
  if resume then
    match c with
    | CkptFile.valid n => n
    | _ => 0
  else 0

/-- Lines 174-181: `needs_header` is true unless resuming over an
existing, openable progress file. -/
def initialNeedsHeader (resume : Bool) (fs : FS) : Bool :=
  if resume then fs.outFile.isNone else true

/-- Observable actions of one run, in order: one invocation of the
adapter query sequence `find_image_url_zero_cost` for a key, one
`append_rows` data write, one checkpoint overwrite with a
`processed_count`. -/
inductive Event
  | lookup (key : String)
  | append (batch : List Row)
  | ckpt (n : Nat)
deriving DecidableEq, Repr

/-- In-flight state of one run: the `barcode_to_image` cache, the
`processed_count` counter, the `pending_batch`, the `needs_header` flag,
both file contents, and the trace so far. -/
structure PS where
  cache : List (String × (Option String × Option String))
  processed : Nat
  pending : List Row
  needsHeader : Bool
  outFile : Option (List Row)
  ckptFile : CkptFile
  events : List Event
deriving Repr

/-- `append_rows` (lines 183-192): truncate and write the header on the
first write of a fresh/absent file, append afterwards. -/
def append_rows (batch : List Row) (s : PS) : PS :=
  if s.needsHeader then
    { s with outFile := some batch
             needsHeader := false
             events := s.events ++ [Event.append batch] }
  else
    { s with outFile := some ((s.outFile.getD []) ++ batch)
             events := s.events ++ [Event.append batch] }

/-- Lines 234-235 / 242-243: overwrite the checkpoint file with the
current `processed_count`. -/
def save_checkpoint (s : PS) : PS :=
  { s with ckptFile := CkptFile.valid s.processed
           events := s.events ++ [Event.ckpt s.processed] }

/-- Python `row.get(barcode_col, "")`. -/
def rowRawBarcode (col : String) (row : Row) : String :=
  (rowGet row col).getD ""

/-- One iteration of the `for idx in range(start_index, total)` loop
(lines 201-235): normalize, cache-or-query, enrich, accumulate, and
commit (append then checkpoint) when `checkpoint_every` divides the new
`processed_count`. -/
def step (o : String → Nat → Nat → FetchResp) (retries : Nat) (col : String)
    (checkpointEvery : Int) (s : PS) (row : Row) : PS :=
  let norm := normalize_barcode (rowRawBarcode col row)
  let res : Option String × PS :=
    if norm == "" then (none, s)
    else
      match s.cache.find? (fun kv => kv.1 == norm) with
      | some kv => (kv.2.1, s)
      | none =>
        let r := (find_image_url_zero_cost (fun a b => o norm a b) retries).1
        (r.1, { s with cache := s.cache ++ [(norm, r)]
                       events := s.events ++ [Event.lookup norm] })
  let s1 := res.2
  let newRow := rowSet row "image_url" (res.1.getD "")
  let s2 := { s1 with pending := s1.pending ++ [newRow]
                      processed := s1.processed + 1 }
  if 0 < checkpointEvery ∧ s2.processed % checkpointEvery.toNat = 0 then
    save_checkpoint { (append_rows s2.pending s2) with pending := [] }
  else s2

/-- Lines 144-148: `rows[:limit]` when a positive int limit is given. -/
def applyLimit (limit : Option Int) (rows : List Row) : List Row :=
  match limit with
  | some l => if 0 < l then rows.take l.toNat else rows
  | none => rows

/-- The outward-visible outcome of one `process_csv` call: the raised
configuration error if any, the final contents of both files, and the
trace.  On a configuration error nothing has been executed. -/
structure RunOut where
  error : Option String
  outFile : Option (List Row)
  ckptFile : CkptFile
  events : List Event
deriving DecidableEq, Repr

/-- `process_csv` (lines 126-245).  `o` is the HTTP oracle (barcode,
source index, attempt index ↦ response); `retries`, `limit`,
`checkpoint_every` and `resume` are the function's parameters; `fs` is
the pre-run state of the two files. -/
def process_csv (o : String → Nat → Nat → FetchResp) (retries : Nat)
    (fieldnames : List String) (rows0 : List Row) (barcode_col : String)
    (limit : Option Int) (checkpoint_every : Int) (resume : Bool)
    (fs : FS) : RunOut :=
  if barcode_col ∈ fieldnames then
    let rows := applyLimit limit rows0
    let start := loadCheckpoint resume fs.ckptFile
    let s0 : PS :=
      { cache := []
        processed := start
        pending := []
        needsHeader := initialNeedsHeader resume fs
        outFile := fs.outFile
        ckptFile := fs.ckptFile
        events := [] }
    let s1 := (rows.drop start).foldl (step o retries barcode_col checkpoint_every) s0
    let s2 := if s1.pending = [] then s1 else save_checkpoint (append_rows s1.pending s1)
    { error := none, outFile := s2.outFile, ckptFile := s2.ckptFile, events := s2.events }
  else
    { error := some "barcode column not found"
      outFile := fs.outFile
      ckptFile := fs.ckptFile
      events := [] }

/-- The enrichment of one row, as `step` performs it: the `image_url`
column is set to the found URL, or to `""` for a sentinel key or a
not-found lookup.  (`step` routes repeated keys through the cache, which
only ever stores `find_image_url_zero_cost` results, so the effect is
pointwise; this is proved below, not assumed.) -/
def enrichRow (o : String → Nat → Nat → FetchResp) (retries : Nat)
    (col : String) (row : Row) : Row :=
  let norm := normalize_barcode (rowRawBarcode col row)
  let img : Option String :=
    if norm == "" then none
    else (find_image_url_zero_cost (fun a b => o norm a b) retries).1.1
  rowSet row "image_url" (img.getD "")

/-! ## Basic lemmas about rows -/

theorem rowGet_cons (p : String × String) (r : Row) (c : String) :
    rowGet (p :: r) c = if p.1 == c then some p.2 else rowGet r c := by
  by_cases h : (p.1 == c) = true
  · simp [rowGet, List.find?_cons_of_pos, h]
  · have h' : (p.1 == c) = false := by simpa using h
    simp [rowGet, List.find?_cons_of_neg, h, h']

theorem rowGet_append (r1 r2 : Row) (c : String) :
    rowGet (r1 ++ r2) c = (rowGet r1 c).orElse (fun _ => rowGet r2 c) := by
  induction r1 with
  | nil => simp [rowGet]
  | cons q qs ih =>
    simp only [List.cons_append, rowGet_cons]
    by_cases h : (q.1 == c) = true
    · simp [h]
    · have h' : (q.1 == c) = false := by simpa using h
      simp [h', ih]

theorem rowGet_map_same (k v : String) :
    ∀ r : Row, r.any (fun p => p.1 == k) = true →
      rowGet (r.map (fun p => if p.1 == k then (k, v) else p)) k = some v := by
  intro r
  induction r with
  | nil => intro h; simp at h
  | cons q qs ih =>
    intro h
    simp only [List.map_cons, rowGet_cons]
    by_cases hqk : (q.1 == k) = true
    · simp [hqk]
    · have hqk' : (q.1 == k) = false := by simpa using hqk
      have h2 : qs.any (fun p => p.1 == k) = true := by
        simp only [List.any_cons, hqk', Bool.false_or] at h
        exact h
      simp only [hqk', Bool.false_eq_true, if_false]
      simpa using ih h2

theorem rowGet_map_overwrite (k v c : String) (hck : c ≠ k) :
    ∀ r : Row, rowGet (r.map (fun p => if p.1 == k then (k, v) else p)) c = rowGet r c := by
  intro r
  induction r with
  | nil => rfl
  | cons q qs ih =>
    simp only [List.map_cons, rowGet_cons]
    by_cases hqk : (q.1 == k) = true
    · have hq1 : q.1 = k := by simpa using hqk
      have h2 : (k == c) = false := beq_eq_false_iff_ne.mpr fun h => hck h.symm
      have h3 : (q.1 == c) = false := by rw [hq1]; exact h2
      simp only [hqk, if_true, h2, h3, Bool.false_eq_true, if_false]
      simpa using ih
    · have hqk' : (q.1 == k) = false := by simpa using hqk
      simp only [hqk', Bool.false_eq_true, if_false]
      by_cases hqc : (q.1 == c) = true
      · simp [hqc]
      · have hqc' : (q.1 == c) = false := by simpa using hqc
        simp only [hqc', Bool.false_eq_true, if_false]
        simpa using ih

theorem rowGet_eq_none_of_not_any (r : Row) (k : String)
    (h : r.any (fun p => p.1 == k) = false) : rowGet r k = none := by
  induction r with
  | nil => rfl
  | cons q qs ih =>
    simp only [List.any_cons, Bool.or_eq_false_iff] at h
    rw [rowGet_cons, h.1]
    simpa using ih h.2

theorem rowGet_rowSet_same (r : Row) (k v : String) :
    rowGet (rowSet r k v) k = some v := by
  unfold rowSet
  cases h : r.any (fun p => p.1 == k) with
  | true =>
    simp only [if_true]
    exact rowGet_map_same k v r h
  | false =>
    simp only [Bool.false_eq_true, if_false]
    rw [rowGet_append, rowGet_eq_none_of_not_any r k h, rowGet_cons]
    simp [rowGet]

theorem rowGet_rowSet_other (r : Row) (k v c : String) (hck : c ≠ k) :
    rowGet (rowSet r k v) c = rowGet r c := by
  unfold rowSet
  cases h : r.any (fun p => p.1 == k) with
  | true =>
    simp only [if_true]
    exact rowGet_map_overwrite k v c hck r
  | false =>
    simp only [Bool.false_eq_true, if_false]
    rw [rowGet_append, rowGet_cons]
    have h2 : (k == c) = false := beq_eq_false_iff_ne.mpr fun hh => hck hh.symm
    simp only [h2, Bool.false_eq_true, if_false]
    cases hr : rowGet r c <;> simp [rowGet, Option.orElse]

/-! ## C7: the key normalizer contract -/

/-- C7.  `normalize_barcode` is a pure total Lean function (hence
deterministic, I/O-free, never failing; equal inputs trivially yield
equal outputs).  The theorem states the rest of the contract: every
output character is a decimal digit; the output is a subsequence of the
input (original order); every digit of the input is kept (with
multiplicity); the output is empty exactly when the input has no digit,
and that empty result is the "no key" sentinel `NOKEY`; and the copy of
the function in `html_barcode_image_fetcher.py` agrees. -/
theorem count_filter_of_pos {α : Type} [DecidableEq α] (p : α → Bool) (c : α)
    (hc : p c = true) : ∀ l : List α, (l.filter p).count c = l.count c := by
  intro l
  induction l with
  | nil => rfl
  | cons a l ih =>
    by_cases ha : p a = true
    · simp only [List.filter_cons, ha, if_true]
      by_cases hac : a = c
      · simp [hac, List.count_cons, ih]
      · simp [List.count_cons, hac, ih]
    · have ha' : p a = false := by simpa using ha
      have hac : a ≠ c := fun h => by rw [h, hc] at ha'; cases ha'
      simp only [List.filter_cons, ha', Bool.false_eq_true, if_false]
      simp [List.count_cons, hac, ih]

theorem claim_c7_normalizer (s : String) :
    (∀ c ∈ (normalize_barcode s).data, c.isDigit = true) ∧
    (normalize_barcode s).data.Sublist s.data ∧
    (∀ c : Char, c.isDigit = true → (normalize_barcode s).data.count c = s.data.count c) ∧
    ((normalize_barcode s = NOKEY) ↔ ∀ c ∈ s.data, c.isDigit = false) ∧
    normalize_barcode_html s = normalize_barcode s := by
  refine ⟨?_, ?_, ?_, ?_, rfl⟩
  · intro c hc
    exact List.of_mem_filter hc
  · exact List.filter_sublist s.data
  · intro c hc
    exact count_filter_of_pos Char.isDigit c hc s.data
  · constructor
    · intro h c hcmem
      have hdata : s.data.filter Char.isDigit = [] := by
        have := congrArg String.data h
        simpa [normalize_barcode, NOKEY] using this
      by_cases hd : c.isDigit = true
      · exfalso
        have : c ∈ s.data.filter Char.isDigit := List.mem_filter.mpr ⟨hcmem, hd⟩
        rw [hdata] at this
        cases this
      · simpa using hd
    · intro h
      have hdata : s.data.filter Char.isDigit = [] := by
        apply List.filter_eq_nil_iff.mpr
        intro a ha
        simp [h a ha]
      simp [normalize_barcode, NOKEY, hdata]

/-! ## C3 and C6: the retry harness

The sleep pattern produced by a failing attempt sequence: every attempt,
including the final one, is followed by one politeness delay. -/

/-- Attempt/sleep alternation emitted by `fuel` consecutive failing
attempts of source `s` starting at attempt index `att`. -/
def attemptSleepPattern (s : Nat) : Nat → Nat → List FEvent
  | _, 0 => []
  | att, fuel + 1 =>
    FEvent.attempt s att :: FEvent.sleep :: attemptSleepPattern s (att + 1) fuel

theorem trySourceGo_all_fail (o : Nat → Nat → FetchResp) (s : Nat)
    (hfail : ∀ a, attemptResult (o s a) = none) :
    ∀ fuel att, trySourceGo o s att fuel = (none, attemptSleepPattern s att fuel) := by
  intro fuel
  induction fuel with
  | zero => intro att; rfl
  | succ n ih =>
    intro att
    simp only [trySourceGo, hfail att, attemptSleepPattern, ih (att + 1)]

/-- C6 counterexample.  One attempt per source, all attempts failing:
the trace of `find_image_url_zero_cost` puts a politeness sleep directly
after the final (here: only) attempt of every source's attempt sequence,
including the last one of the whole call — the claim says no sleep
follows the final attempt of a sequence. -/
theorem claim_c6_counterexample :
    (find_image_url_zero_cost (fun _ _ => FetchResp.netError) 1).2
      = [FEvent.attempt 0 0, FEvent.sleep, FEvent.attempt 1 0, FEvent.sleep,
         FEvent.attempt 2 0, FEvent.sleep] := by
  rfl

/-- C6 (amended).  Within one source's attempt sequence the harness
sleeps for the configured delay after every attempt that does not return
an image — including the final attempt — and a successful attempt
returns immediately with no sleep after it.  (The original claim's "no
sleep after the final attempt" only holds when that attempt succeeds.) -/
theorem claim_c6_politeness_delay (o : Nat → Nat → FetchResp) (s : Nat) :
    (∀ retries, (∀ a, attemptResult (o s a) = none) →
       trySource o s retries = (none, attemptSleepPattern s 0 retries)) ∧
    (∀ retries u, attemptResult (o s 0) = some u →
       trySource o s (retries + 1) = (some u, [FEvent.attempt s 0])) := by
  constructor
  · intro retries h
    exact trySourceGo_all_fail o s h retries 0
  · intro retries u h
    simp only [trySource, trySourceGo, h]

/-- Witness for `claim_c6_politeness_delay` at a concrete failing oracle
and a concrete succeeding oracle. -/
theorem claim_c6_witness :
    trySource (fun _ _ => FetchResp.netError) 0 2
        = (none, attemptSleepPattern 0 0 2) ∧
    trySource (fun _ _ => FetchResp.mk 200 (some (J.dict
        [("status", J.num 1), ("product", J.dict [("image_url", J.str "http://x")])]))) 0 2
      = (some "http://x", [FEvent.attempt 0 0]) := by
  constructor
  · exact (claim_c6_politeness_delay (fun _ _ => FetchResp.netError) 0).1 2 (fun _ => rfl)
  · exact (claim_c6_politeness_delay (fun _ _ => FetchResp.mk 200 (some (J.dict
      [("status", J.num 1), ("product", J.dict [("image_url", J.str "http://x")])]))) 0).2
      1 "http://x" (by decide)

/-- The oracle of the C3 counterexample: source 0 answers HTTP 404 on its
first attempt; everything else is a network failure. -/
def oracle404 : Nat → Nat → FetchResp :=
  fun s a => if s == 0 && a == 0 then FetchResp.mk 404 none else FetchResp.netError

/-- C3 counterexample.  After source 0 answers 404 on attempt 0, the
harness still issues attempt 1 to that same source for the same key —
the 404 is not terminal for the source's attempt sequence, contradicting
the claim. -/
theorem claim_c3_counterexample :
    oracle404 0 0 = FetchResp.mk 404 none ∧
    FEvent.attempt 0 1 ∈ (find_image_url_zero_cost oracle404 2).2 := by
  exact ⟨rfl, by decide⟩

/-- C3 (amended).  `fetch_openfacts_product` maps HTTP 404, network
failure and malformed responses all to `None`, so the retry harness
cannot distinguish them: after a 404 (as after any failure) the
remaining attempts of that source are still issued, every source gets
its full `retries` attempts, and only a successful attempt
short-circuits.  Under an all-failing oracle the trace is the full
attempt/sleep pattern of every source in order. -/
theorem claim_c3_retry_uniformity (o : Nat → Nat → FetchResp) (retries : Nat)
    (hfail : ∀ s a, attemptResult (o s a) = none) :
    fetch_openfacts_product FetchResp.netError = none ∧
    (∀ b, fetch_openfacts_product (FetchResp.mk 404 b) = none) ∧
    find_image_url_zero_cost o retries =
      ((none, none),
        attemptSleepPattern 0 0 retries ++ attemptSleepPattern 1 0 retries ++
          attemptSleepPattern 2 0 retries) := by
  refine ⟨rfl, fun b => rfl, ?_⟩
  have h0 := trySourceGo_all_fail o 0 (hfail 0) retries 0
  have h1 := trySourceGo_all_fail o 1 (hfail 1) retries 0
  have h2 := trySourceGo_all_fail o 2 (hfail 2) retries 0
  have he : OPEN_FACTS_SOURCES.enum =
      [(0, ("world.openfoodfacts.org", "openfoodfacts")),
       (1, ("world.openbeautyfacts.org", "openbeautyfacts")),
       (2, ("world.openpetfoodfacts.org", "openpetfoodfacts"))] := rfl
  simp only [find_image_url_zero_cost, he, findGo, trySource, h0, h1, h2,
    List.append_assoc, List.append_nil]

/-- Witness for `claim_c3_retry_uniformity` with the all-failing oracle. -/
theorem claim_c3_witness :
    find_image_url_zero_cost (fun _ _ => FetchResp.netError) 2 =
      ((none, none),
        attemptSleepPattern 0 0 2 ++ attemptSleepPattern 1 0 2 ++
          attemptSleepPattern 2 0 2) :=
  (claim_c3_retry_uniformity (fun _ _ => FetchResp.netError) 2 (fun _ _ => rfl)).2.2

/-! ## Field lemmas for the progress store operations -/

theorem append_rows_events (batch : List Row) (s : PS) :
    (append_rows batch s).events = s.events ++ [Event.append batch] := by
  unfold append_rows; split <;> rfl

theorem append_rows_processed (batch : List Row) (s : PS) :
    (append_rows batch s).processed = s.processed := by
  unfold append_rows; split <;> rfl

theorem append_rows_cache (batch : List Row) (s : PS) :
    (append_rows batch s).cache = s.cache := by
  unfold append_rows; split <;> rfl

theorem append_rows_pending (batch : List Row) (s : PS) :
    (append_rows batch s).pending = s.pending := by
  unfold append_rows; split <;> rfl

theorem append_rows_ckptFile (batch : List Row) (s : PS) :
    (append_rows batch s).ckptFile = s.ckptFile := by
  unfold append_rows; split <;> rfl

theorem append_rows_needsHeader (batch : List Row) (s : PS) :
    (append_rows batch s).needsHeader = false := by
  unfold append_rows
  split
  · rfl
  · rename_i h
    dsimp only
    simpa using h

theorem append_rows_outFile (batch : List Row) (s : PS) :
    (append_rows batch s).outFile =
      some (if s.needsHeader then batch else s.outFile.getD [] ++ batch) := by
  unfold append_rows
  by_cases h : s.needsHeader = true
  · simp [h]
  · have h' : s.needsHeader = false := by simpa using h
    simp [h']

/-! ## C2: data is appended strictly before the checkpoint is written -/

def isAppendEvent : Event → Bool
  | Event.append _ => true
  | _ => false

/-- Scan of a trace checking that every checkpoint write is immediately
preceded by a data append; the flag says whether the previous event was
an append. -/
def dataBeforeCkptFrom : Bool → List Event → Bool
  | _, [] => true
  | prevApp, Event.ckpt _ :: es => prevApp && dataBeforeCkptFrom false es
  | _, Event.append _ :: es => dataBeforeCkptFrom true es
  | _, Event.lookup _ :: es => dataBeforeCkptFrom false es

/-- Every checkpoint write in the trace is immediately preceded by a data
append (in particular the trace never begins with a checkpoint write). -/
def dataBeforeCkpt (es : List Event) : Bool := dataBeforeCkptFrom false es

/-- Whether the trace ends with an append (`p` answering for the empty
trace). -/
def endsWithAppend : Bool → List Event → Bool
  | p, [] => p
  | _, e :: es => endsWithAppend (isAppendEvent e) es

theorem endsWithAppend_snoc (es : List Event) :
    ∀ (p : Bool) (e : Event), endsWithAppend p (es ++ [e]) = isAppendEvent e := by
  induction es with
  | nil => intro p e; rfl
  | cons x xs ih =>
    intro p e
    rw [List.cons_append]
    show endsWithAppend (isAppendEvent x) (xs ++ [e]) = isAppendEvent e
    exact ih _ e

theorem dataBeforeCkptFrom_snoc_lookup (k : String) :
    ∀ (es : List Event) (p : Bool),
      dataBeforeCkptFrom p (es ++ [Event.lookup k]) = dataBeforeCkptFrom p es := by
  intro es
  induction es with
  | nil => intro p; rfl
  | cons x xs ih =>
    intro p
    cases x <;> simp only [List.cons_append, dataBeforeCkptFrom, List.append_eq, ih]

theorem dataBeforeCkptFrom_snoc_append (b : List Row) :
    ∀ (es : List Event) (p : Bool),
      dataBeforeCkptFrom p (es ++ [Event.append b]) = dataBeforeCkptFrom p es := by
  intro es
  induction es with
  | nil => intro p; rfl
  | cons x xs ih =>
    intro p
    cases x <;> simp only [List.cons_append, dataBeforeCkptFrom, List.append_eq, ih]

theorem dataBeforeCkptFrom_snoc_ckpt (n : Nat) :
    ∀ (es : List Event) (p : Bool),
      dataBeforeCkptFrom p (es ++ [Event.ckpt n]) =
        (dataBeforeCkptFrom p es && endsWithAppend p es) := by
  intro es
  induction es with
  | nil => intro p; simp [dataBeforeCkptFrom, endsWithAppend]
  | cons x xs ih =>
    intro p
    cases x <;>
      simp only [List.cons_append, dataBeforeCkptFrom, endsWithAppend, List.append_eq, ih,
        isAppendEvent, Bool.and_assoc]

theorem dataBeforeCkpt_snoc_lookup (es : List Event) (k : String)
    (h : dataBeforeCkpt es = true) :
    dataBeforeCkpt (es ++ [Event.lookup k]) = true := by
  unfold dataBeforeCkpt at *
  rw [dataBeforeCkptFrom_snoc_lookup]
  exact h

theorem dataBeforeCkpt_snoc_commit (es : List Event) (b : List Row) (n : Nat)
    (h : dataBeforeCkpt es = true) :
    dataBeforeCkpt (es ++ [Event.append b, Event.ckpt n]) = true := by
  unfold dataBeforeCkpt at *
  have h2 : es ++ [Event.append b, Event.ckpt n]
      = (es ++ [Event.append b]) ++ [Event.ckpt n] := by simp
  rw [h2, dataBeforeCkptFrom_snoc_ckpt, dataBeforeCkptFrom_snoc_append,
    endsWithAppend_snoc]
  simp [h, isAppendEvent]

/-- Committing a batch (append then checkpoint, with the pending batch
cleared in between, as the periodic commit does) preserves the
write-ahead-data ordering of the trace. -/
theorem dataBeforeCkpt_commitState (s : PS) (batch : List Row)
    (h : dataBeforeCkpt s.events = true) :
    dataBeforeCkpt (save_checkpoint { append_rows batch s with pending := [] }).events
      = true := by
  have he : (save_checkpoint { append_rows batch s with pending := [] }).events
      = s.events ++ [Event.append batch, Event.ckpt (append_rows batch s).processed] := by
    unfold save_checkpoint
    dsimp only
    rw [append_rows_events]
    simp
  rw [he]
  exact dataBeforeCkpt_snoc_commit _ _ _ h

/-- The final flush (append then checkpoint, pending left as is)
likewise preserves the ordering. -/
theorem dataBeforeCkpt_flushState (s : PS) (batch : List Row)
    (h : dataBeforeCkpt s.events = true) :
    dataBeforeCkpt (save_checkpoint (append_rows batch s)).events = true := by
  have he : (save_checkpoint (append_rows batch s)).events
      = s.events ++ [Event.append batch, Event.ckpt (append_rows batch s).processed] := by
    unfold save_checkpoint
    rw [append_rows_events]
    simp
  rw [he]
  exact dataBeforeCkpt_snoc_commit _ _ _ h

theorem dataBeforeCkpt_step (o : String → Nat → Nat → FetchResp) (retries : Nat)
    (col : String) (B : Int) (s : PS) (row : Row)
    (h : dataBeforeCkpt s.events = true) :
    dataBeforeCkpt (step o retries col B s row).events = true := by
  unfold step
  dsimp only
  by_cases hn : (normalize_barcode (rowRawBarcode col row) == "") = true
  · simp only [hn, if_true]
    split
    · exact dataBeforeCkpt_commitState _ _ h
    · exact h
  · have hn2 : (normalize_barcode (rowRawBarcode col row) == "") = false := by
      simpa using hn
    simp only [hn2, Bool.false_eq_true, if_false]
    rcases hfind : s.cache.find? (fun kv => kv.1 == normalize_barcode (rowRawBarcode col row))
      with _ | kv
    · simp only [hfind]
      have h2 := dataBeforeCkpt_snoc_lookup s.events
        (normalize_barcode (rowRawBarcode col row)) h
      split
      · exact dataBeforeCkpt_commitState _ _ h2
      · exact h2
    · simp only [hfind]
      split
      · exact dataBeforeCkpt_commitState _ _ h
      · exact h

/-- C2.  In every batch commit of `process_csv` — the periodic
`checkpoint_every` commit and the final flush alike — the pending rows
are appended to the output file strictly before the checkpoint file is
overwritten: in the run's trace, every checkpoint write is immediately
preceded by the corresponding data append, and the trace never starts
with a checkpoint write.  An interruption between the two writes
therefore leaves the old (smaller) checkpoint on disk, never a
checkpoint ahead of the data. -/
theorem claim_c2_write_ahead_ordering (o : String → Nat → Nat → FetchResp)
    (retries : Nat) (fieldnames : List String) (rows0 : List Row)
    (col : String) (limit : Option Int) (B : Int) (resume : Bool) (fs : FS) :
    dataBeforeCkpt (process_csv o retries fieldnames rows0 col limit B resume fs).events
      = true := by
  unfold process_csv
  by_cases h : col ∈ fieldnames
  · simp only [h, if_true]
    have hfold : ∀ (rows : List Row) (s : PS), dataBeforeCkpt s.events = true →
        dataBeforeCkpt (rows.foldl (step o retries col B) s).events = true := by
      intro rows
      induction rows with
      | nil => intro s hs; exact hs
      | cons r rs ih =>
        intro s hs
        exact ih _ (dataBeforeCkpt_step o retries col B s r hs)
    have h1 := hfold
      ((applyLimit limit rows0).drop (loadCheckpoint resume fs.ckptFile))
      { cache := [], processed := loadCheckpoint resume fs.ckptFile, pending := [],
        needsHeader := initialNeedsHeader resume fs, outFile := fs.outFile,
        ckptFile := fs.ckptFile, events := [] }
      rfl
    split
    · exact h1
    · exact dataBeforeCkpt_flushState _ _ h1
  · simp only [h, if_false]
    rfl

/-! ## C8: missing key column aborts before any processing -/

/-- C8.  When the configured barcode column is absent from the input
header, `process_csv` raises its configuration error before any lookup,
any output write and any checkpoint write: the result carries the error,
both files are untouched, and the trace is empty. -/
theorem claim_c8_missing_column (o : String → Nat → Nat → FetchResp)
    (retries : Nat) (fieldnames : List String) (rows0 : List Row)
    (col : String) (limit : Option Int) (B : Int) (resume : Bool) (fs : FS)
    (h : col ∉ fieldnames) :
    process_csv o retries fieldnames rows0 col limit B resume fs =
      { error := some "barcode column not found"
        outFile := fs.outFile
        ckptFile := fs.ckptFile
        events := [] } := by
  unfold process_csv
  simp [h]

/-- Witness for `claim_c8_missing_column` on a concrete header lacking
the configured column. -/
theorem claim_c8_witness :
    process_csv (fun _ _ _ => FetchResp.netError) 2 ["title"] [[("title", "x")]]
        "code" none 50 false { outFile := none, ckptFile := CkptFile.absent } =
      { error := some "barcode column not found", outFile := none,
        ckptFile := CkptFile.absent, events := [] } :=
  claim_c8_missing_column _ _ _ _ _ _ _ _ _ (by decide)

/-- Witness for `claim_c7_normalizer`, instantiating its digit-count
clause and its sentinel clause on concrete strings. -/
theorem claim_c7_witness :
    (normalize_barcode "a1b2").data.count '1' = "a1b2".data.count '1' ∧
    normalize_barcode "ab" = NOKEY :=
  ⟨(claim_c7_normalizer "a1b2").2.2.1 '1' (by decide),
   (claim_c7_normalizer "ab").2.2.2.1.mpr (by decide)⟩

/-! ## C1: at most one adapter query sequence per key -/

def cacheKeys (cache : List (String × (Option String × Option String))) : List String :=
  cache.map (fun kv => kv.1)

theorem save_checkpoint_cache (s : PS) : (save_checkpoint s).cache = s.cache := rfl

theorem save_checkpoint_events (s : PS) :
    (save_checkpoint s).events = s.events ++ [Event.ckpt s.processed] := rfl

/-- The cache/trace invariant behind C1: the number of `lookup k` events
is 1 for cached keys and 0 otherwise, and the cached keys are exactly the
non-sentinel normalized keys of the rows processed so far. -/
def InvA (col : String) (s : PS) (stepped : List Row) : Prop :=
  (∀ k : String, s.events.count (Event.lookup k)
      = if k ∈ cacheKeys s.cache then 1 else 0) ∧
  (∀ k : String, k ∈ cacheKeys s.cache ↔
      (k ≠ "" ∧ k ∈ stepped.map (fun r => normalize_barcode (rowRawBarcode col r))))

theorem count_lookup_commit (es : List Event) (b : List Row) (n : Nat) (k : String) :
    (es ++ [Event.append b, Event.ckpt n]).count (Event.lookup k)
      = es.count (Event.lookup k) := by
  simp [List.count_append, List.count_cons]

/-- A batch commit changes neither the cache nor the number of `lookup`
events, hence preserves `InvA`. -/
theorem InvA_commit (col : String) (s : PS) (batch : List Row) (stepped : List Row)
    (h : InvA col s stepped) :
    InvA col (save_checkpoint { append_rows batch s with pending := [] }) stepped := by
  obtain ⟨hcount, hmem⟩ := h
  have he : (save_checkpoint { append_rows batch s with pending := [] }).events
      = s.events ++ [Event.append batch, Event.ckpt (append_rows batch s).processed] := by
    rw [save_checkpoint_events]
    dsimp only
    rw [append_rows_events]
    simp
  have hc : (save_checkpoint { append_rows batch s with pending := [] }).cache
      = s.cache := by
    rw [save_checkpoint_cache]
    dsimp only
    rw [append_rows_cache]
  constructor
  · intro k
    rw [he, hc, count_lookup_commit]
    exact hcount k
  · intro k
    rw [hc]
    exact hmem k

theorem InvA_step (o : String → Nat → Nat → FetchResp) (retries : Nat)
    (col : String) (B : Int) (s : PS) (row : Row) (stepped : List Row)
    (h : InvA col s stepped) :
    InvA col (step o retries col B s row) (stepped ++ [row]) := by
  obtain ⟨hcount, hmem⟩ := h
  have hmap : (stepped ++ [row]).map (fun r => normalize_barcode (rowRawBarcode col r))
      = stepped.map (fun r => normalize_barcode (rowRawBarcode col r))
        ++ [normalize_barcode (rowRawBarcode col row)] := by
    simp
  unfold step
  dsimp only
  by_cases hn : (normalize_barcode (rowRawBarcode col row) == "") = true
  · -- sentinel key: no lookup, no cache change
    have hn2 : normalize_barcode (rowRawBarcode col row) = "" := by simpa using hn
    simp only [hn, if_true]
    have hpre : InvA col
        { s with pending := s.pending ++ [rowSet row "image_url" (Option.getD none "")]
                 processed := s.processed + 1 } (stepped ++ [row]) := by
      constructor
      · intro k
        exact hcount k
      · intro k
        rw [hmap, hn2]
        constructor
        · intro hk
          have h2 := (hmem k).mp hk
          exact ⟨h2.1, List.mem_append_left _ h2.2⟩
        · intro hk
          apply (hmem k).mpr
          refine ⟨hk.1, ?_⟩
          rcases List.mem_append.mp hk.2 with h2 | h2
          · exact h2
          · exfalso
            exact hk.1 (List.mem_singleton.mp h2)
      
    split
    · exact InvA_commit col _ _ _ hpre
    · exact hpre
  · have hn2 : (normalize_barcode (rowRawBarcode col row) == "") = false := by
      simpa using hn
    have hn3 : normalize_barcode (rowRawBarcode col row) ≠ "" := by
      simpa using hn2
    simp only [hn2, Bool.false_eq_true, if_false]
    rcases hfind : s.cache.find? (fun kv => kv.1 == normalize_barcode (rowRawBarcode col row))
      with _ | kv
    · -- cache miss: the key is looked up and inserted
      simp only [hfind]
      have hnotin : normalize_barcode (rowRawBarcode col row) ∉ cacheKeys s.cache := by
        intro hk
        rcases List.mem_map.mp hk with ⟨kv, hkv, hkv1⟩
        have := List.find?_eq_none.mp hfind kv hkv
        simp [hkv1] at this
      have hpre : InvA col
          { s with
              cache := s.cache ++
                [(normalize_barcode (rowRawBarcode col row),
                  (find_image_url_zero_cost
                    (fun a b => o (normalize_barcode (rowRawBarcode col row)) a b) retries).1)]
              events := s.events ++ [Event.lookup (normalize_barcode (rowRawBarcode col row))]
              pending := s.pending ++
                [rowSet row "image_url"
                  (Option.getD (find_image_url_zero_cost
                    (fun a b => o (normalize_barcode (rowRawBarcode col row)) a b) retries).1.1 "")]
              processed := s.processed + 1 } (stepped ++ [row]) := by
        constructor
        · intro k
          dsimp only
          have hkeys : cacheKeys (s.cache ++
              [(normalize_barcode (rowRawBarcode col row),
                (find_image_url_zero_cost
                  (fun a b => o (normalize_barcode (rowRawBarcode col row)) a b) retries).1)])
              = cacheKeys s.cache ++ [normalize_barcode (rowRawBarcode col row)] := by
            simp [cacheKeys]
          rw [hkeys]
          by_cases hk : k = normalize_barcode (rowRawBarcode col row)
          · have h0 : s.events.count (Event.lookup k) = 0 := by
              rw [hcount k, if_neg]
              rw [hk]
              exact hnotin
            have hkin : k ∈ cacheKeys s.cache ++ [normalize_barcode (rowRawBarcode col row)] := by
              rw [hk]
              exact List.mem_append_right _ (List.mem_singleton.mpr rfl)
            rw [List.count_append, h0]
            simp [List.count_cons, hk, hkin]
          · have hne2 : (Event.lookup k
                == Event.lookup (normalize_barcode (rowRawBarcode col row))) = false := by
              simpa using hk
            have hmem2 : (k ∈ cacheKeys s.cache ++ [normalize_barcode (rowRawBarcode col row)])
                ↔ k ∈ cacheKeys s.cache := by
              rw [List.mem_append]
              constructor
              · rintro (h2 | h2)
                · exact h2
                · exact absurd (List.mem_singleton.mp h2) hk
              · exact fun h2 => Or.inl h2
            have hk2 : ¬normalize_barcode (rowRawBarcode col row) = k :=
              fun hc => hk hc.symm
            rw [List.count_append, hcount k]
            by_cases hin : k ∈ cacheKeys s.cache
            · simp [hin, hmem2, List.count_cons, hne2, hk2]
            · simp [hin, hmem2, List.count_cons, hne2, hk2]
        · intro k
          dsimp only
          have hkeys : cacheKeys (s.cache ++
              [(normalize_barcode (rowRawBarcode col row),
                (find_image_url_zero_cost
                  (fun a b => o (normalize_barcode (rowRawBarcode col row)) a b) retries).1)])
              = cacheKeys s.cache ++ [normalize_barcode (rowRawBarcode col row)] := by
            simp [cacheKeys]
          rw [hkeys, hmap, List.mem_append, List.mem_append, hmem k]
          constructor
          · rintro (⟨h1, h2⟩ | h2)
            · exact ⟨h1, Or.inl h2⟩
            · have := List.mem_singleton.mp h2
              subst this
              exact ⟨hn3, Or.inr (List.mem_singleton.mpr rfl)⟩
          · rintro ⟨h1, h2 | h2⟩
            · exact Or.inl ⟨h1, h2⟩
            · exact Or.inr h2
      split
      · exact InvA_commit col _ _ _ hpre
      · exact hpre
    · -- cache hit: nothing changes
      simp only [hfind]
      have hkv1 : kv.1 = normalize_barcode (rowRawBarcode col row) := by
        have := List.find?_some hfind
        simpa using this
      have hkvmem : kv ∈ s.cache := List.mem_of_find?_eq_some hfind
      have hinkeys : normalize_barcode (rowRawBarcode col row) ∈ cacheKeys s.cache := by
        rw [← hkv1]
        exact List.mem_map.mpr ⟨kv, hkvmem, rfl⟩
      have hpre : InvA col
          { s with pending := s.pending ++ [rowSet row "image_url" (Option.getD kv.2.1 "")]
                   processed := s.processed + 1 } (stepped ++ [row]) := by
        constructor
        · intro k
          exact hcount k
        · intro k
          rw [hmap, List.mem_append, hmem k]
          constructor
          · rintro ⟨h1, h2⟩
            exact ⟨h1, Or.inl h2⟩
          · rintro ⟨h1, h2 | h2⟩
            · exact ⟨h1, h2⟩
            · have := List.mem_singleton.mp h2
              subst this
              exact ⟨h1, (hmem _).mp hinkeys |>.2⟩
      split
      · exact InvA_commit col _ _ _ hpre
      · exact hpre

/-- The final flush likewise changes neither the cache nor the number of
`lookup` events. -/
theorem InvA_flush (col : String) (s : PS) (batch : List Row) (stepped : List Row)
    (h : InvA col s stepped) :
    InvA col (save_checkpoint (append_rows batch s)) stepped := by
  obtain ⟨hcount, hmem⟩ := h
  have he : (save_checkpoint (append_rows batch s)).events
      = s.events ++ [Event.append batch, Event.ckpt (append_rows batch s).processed] := by
    rw [save_checkpoint_events, append_rows_events]
    simp
  have hc : (save_checkpoint (append_rows batch s)).cache = s.cache := by
    rw [save_checkpoint_cache, append_rows_cache]
  constructor
  · intro k
    rw [he, hc, count_lookup_commit]
    exact hcount k
  · intro k
    rw [hc]
    exact hmem k

theorem InvA_foldl (o : String → Nat → Nat → FetchResp) (retries : Nat)
    (col : String) (B : Int) :
    ∀ (rows : List Row) (s : PS) (stepped : List Row), InvA col s stepped →
      InvA col (rows.foldl (step o retries col B) s) (stepped ++ rows) := by
  intro rows
  induction rows with
  | nil =>
    intro s stepped h
    simpa using h
  | cons r rs ih =>
    intro s stepped h
    have h2 := InvA_step o retries col B s r stepped h
    have h3 := ih _ (stepped ++ [r]) h2
    simpa [List.append_assoc] using h3

/-- Unfolding of `process_csv` in the valid-column case, exposing the
initial state, the row loop and the final flush. -/
theorem process_csv_run_shape (o : String → Nat → Nat → FetchResp) (retries : Nat)
    (fieldnames : List String) (rows0 : List Row) (col : String)
    (limit : Option Int) (B : Int) (resume : Bool) (fs : FS)
    (h : col ∈ fieldnames) :
    process_csv o retries fieldnames rows0 col limit B resume fs =
      (let s0 : PS :=
        { cache := [], processed := loadCheckpoint resume fs.ckptFile,
          pending := [], needsHeader := initialNeedsHeader resume fs,
          outFile := fs.outFile, ckptFile := fs.ckptFile, events := [] }
       let s1 := ((applyLimit limit rows0).drop
          (loadCheckpoint resume fs.ckptFile)).foldl (step o retries col B) s0
       let s2 := if s1.pending = [] then s1 else save_checkpoint (append_rows s1.pending s1)
       { error := none, outFile := s2.outFile, ckptFile := s2.ckptFile,
         events := s2.events }) := by
  unfold process_csv
  simp only [h, if_true]

/-- C1.  For every run with a valid barcode column, the number of
adapter query sequences (`find_image_url_zero_cost` invocations, i.e.
`lookup` events) issued for a key `k` is exactly 1 when `k` is a
non-sentinel key and is the normalization of at least one processed
row's barcode field, and exactly 0 otherwise — in particular 0 for the
sentinel and 0 extra queries for every repeated occurrence, which is
served from the in-run cache. -/
theorem claim_c1_at_most_one_query (o : String → Nat → Nat → FetchResp)
    (retries : Nat) (fieldnames : List String) (rows0 : List Row)
    (col : String) (limit : Option Int) (B : Int) (resume : Bool) (fs : FS)
    (h : col ∈ fieldnames) :
    ∀ k : String,
      (process_csv o retries fieldnames rows0 col limit B resume fs).events.count
          (Event.lookup k)
        = if k ≠ "" ∧ k ∈ ((applyLimit limit rows0).drop
              (loadCheckpoint resume fs.ckptFile)).map
              (fun r => normalize_barcode (rowRawBarcode col r))
          then 1 else 0 := by
  intro k
  rw [process_csv_run_shape o retries fieldnames rows0 col limit B resume fs h]
  dsimp only
  have h0 : InvA col
      { cache := [], processed := loadCheckpoint resume fs.ckptFile,
        pending := [], needsHeader := initialNeedsHeader resume fs,
        outFile := fs.outFile, ckptFile := fs.ckptFile, events := [] } [] := by
    constructor
    · intro k2
      simp [cacheKeys]
    · intro k2
      simp [cacheKeys]
  have hinv := InvA_foldl o retries col B
    ((applyLimit limit rows0).drop (loadCheckpoint resume fs.ckptFile)) _ [] h0
  rw [List.nil_append] at hinv
  split
  · obtain ⟨hcount, hmem⟩ := hinv
    rw [hcount k]
    by_cases hc : k ≠ "" ∧ k ∈ ((applyLimit limit rows0).drop
        (loadCheckpoint resume fs.ckptFile)).map
        (fun r => normalize_barcode (rowRawBarcode col r))
    · rw [if_pos ((hmem k).mpr hc), if_pos hc]
    · rw [if_neg (fun hin => hc ((hmem k).mp hin)), if_neg hc]
  · obtain ⟨hcount, hmem⟩ := InvA_flush col _ _ _ hinv
    rw [hcount k]
    by_cases hc : k ≠ "" ∧ k ∈ ((applyLimit limit rows0).drop
        (loadCheckpoint resume fs.ckptFile)).map
        (fun r => normalize_barcode (rowRawBarcode col r))
    · rw [if_pos ((hmem k).mpr hc), if_pos hc]
    · rw [if_neg (fun hin => hc ((hmem k).mp hin)), if_neg hc]

/-- Witness for `claim_c1_at_most_one_query`: three concrete rows whose
keys normalize to `"1"`, the sentinel, and `"1"` again — one lookup for
`"1"`, none for the sentinel. -/
theorem claim_c1_witness :
    (process_csv (fun _ _ _ => FetchResp.netError) 1 ["code"]
        [[("code", "a1")], [("code", "")], [("code", "1a")]] "code" none 50 false
        { outFile := none, ckptFile := CkptFile.absent }).events.count
        (Event.lookup "1") = 1 ∧
    (process_csv (fun _ _ _ => FetchResp.netError) 1 ["code"]
        [[("code", "a1")], [("code", "")], [("code", "1a")]] "code" none 50 false
        { outFile := none, ckptFile := CkptFile.absent }).events.count
        (Event.lookup "") = 0 := by
  constructor
  · have h1 := claim_c1_at_most_one_query (fun _ _ _ => FetchResp.netError) 1 ["code"]
      [[("code", "a1")], [("code", "")], [("code", "1a")]] "code" none 50 false
      { outFile := none, ckptFile := CkptFile.absent } (by decide) "1"
    rw [h1, if_pos]
    exact ⟨by decide, by decide⟩
  · have h2 := claim_c1_at_most_one_query (fun _ _ _ => FetchResp.netError) 1 ["code"]
      [[("code", "a1")], [("code", "")], [("code", "1a")]] "code" none 50 false
      { outFile := none, ckptFile := CkptFile.absent } (by decide) ""
    rw [h2, if_neg]
    intro hc
    exact hc.1 rfl

/-! ## The file/checkpoint invariant behind C4, C5, C9 and C10 -/

/-- Every cache entry stores exactly the adapter result for its key. -/
def cacheOK (o : String → Nat → Nat → FetchResp) (retries : Nat)
    (cache : List (String × (Option String × Option String))) : Prop :=
  ∀ kv ∈ cache, kv.2 = (find_image_url_zero_cost (fun a b => o kv.1 a b) retries).1

/-- Replay of a trace that tracks the output-file row count and the
`needs_header` flag, and checks at every checkpoint write that the
written value strictly exceeds the previous one (`last`) and does not
exceed the rows then in the output file; `none` signals a violation. -/
def ckptChainRun : Nat → Bool → Nat → List Event → Option (Nat × Bool × Nat)
  | len, nh, last, [] => some (len, nh, last)
  | len, nh, last, Event.lookup _ :: es => ckptChainRun len nh last es
  | len, nh, last, Event.append b :: es =>
    ckptChainRun (if nh then b.length else len + b.length) false last es
  | len, nh, last, Event.ckpt n :: es =>
    if last < n ∧ n ≤ len then ckptChainRun len nh n es else none

theorem ckptChainRun_append (es2 : List Event) :
    ∀ (es : List Event) (len : Nat) (nh : Bool) (last : Nat),
      ckptChainRun len nh last (es ++ es2) =
        (match ckptChainRun len nh last es with
         | some (l2, n2, k2) => ckptChainRun l2 n2 k2 es2
         | none => none) := by
  intro es
  induction es with
  | nil => intro len nh last; rfl
  | cons x xs ih =>
    intro len nh last
    cases x with
    | lookup k => simpa only [List.cons_append, ckptChainRun] using ih _ _ _
    | append b => simpa only [List.cons_append, ckptChainRun] using ih _ _ _
    | ckpt n =>
      simp only [List.cons_append, ckptChainRun]
      split
      · exact ih _ _ _
      · rfl

/-- The rows the output file had before any truncation this run may
perform: the pre-run content when resuming over an existing file,
nothing otherwise (a fresh run's first append truncates). -/
def outBase (resume : Bool) (fs : FS) : List Row :=
  if initialNeedsHeader resume fs then [] else fs.outFile.getD []

/-- Loop invariant tying the run state to the rows processed so far
(`stepped`): the pending batch is the enrichment of a suffix of
`stepped`, the output file holds the base plus the enrichment of the
committed prefix, the checkpoint file holds `start` plus the committed
count, and the trace replays consistently with strictly increasing,
file-bounded checkpoint values. -/
def InvB (o : String → Nat → Nat → FetchResp) (retries : Nat) (col : String)
    (fs : FS) (resume : Bool) (start : Nat) (s : PS) (stepped : List Row) : Prop :=
  cacheOK o retries s.cache ∧
  ∃ committed pend : List Row,
    stepped = committed ++ pend ∧
    s.pending = pend.map (enrichRow o retries col) ∧
    s.processed = start + stepped.length ∧
    (committed = [] →
      s.outFile = fs.outFile ∧ s.needsHeader = initialNeedsHeader resume fs ∧
      s.ckptFile = fs.ckptFile) ∧
    (committed ≠ [] →
      s.needsHeader = false ∧
      s.outFile = some (outBase resume fs ++ committed.map (enrichRow o retries col)) ∧
      s.ckptFile = CkptFile.valid (start + committed.length)) ∧
    (start ≤ (outBase resume fs).length →
      ckptChainRun (fs.outFile.getD []).length (initialNeedsHeader resume fs) start s.events
        = some ((s.outFile.getD []).length, s.needsHeader, start + committed.length))

theorem save_checkpoint_outFile (s : PS) : (save_checkpoint s).outFile = s.outFile := rfl

theorem save_checkpoint_pending (s : PS) : (save_checkpoint s).pending = s.pending := rfl

theorem save_checkpoint_processed (s : PS) :
    (save_checkpoint s).processed = s.processed := rfl

theorem save_checkpoint_needsHeader (s : PS) :
    (save_checkpoint s).needsHeader = s.needsHeader := rfl

theorem save_checkpoint_ckptFile (s : PS) :
    (save_checkpoint s).ckptFile = CkptFile.valid s.processed := rfl

/-- Core of a batch commit: from `InvB` and a nonempty pending batch,
appending the pending batch and then checkpointing yields the
fully-committed file and checkpoint, with a consistent replay whose
checkpoint value strictly exceeds the previous one and is bounded by the
file's row count. -/
theorem InvB_commit_core (o : String → Nat → Nat → FetchResp) (retries : Nat)
    (col : String) (fs : FS) (resume : Bool) (start : Nat) (s : PS)
    (stepped : List Row)
    (h : InvB o retries col fs resume start s stepped)
    (hne : s.pending ≠ []) :
    (save_checkpoint (append_rows s.pending s)).cache = s.cache ∧
    (save_checkpoint (append_rows s.pending s)).pending = s.pending ∧
    (save_checkpoint (append_rows s.pending s)).processed = s.processed ∧
    (save_checkpoint (append_rows s.pending s)).needsHeader = false ∧
    (save_checkpoint (append_rows s.pending s)).outFile
      = some (outBase resume fs ++ stepped.map (enrichRow o retries col)) ∧
    (save_checkpoint (append_rows s.pending s)).ckptFile
      = CkptFile.valid (start + stepped.length) ∧
    (start ≤ (outBase resume fs).length →
      ckptChainRun (fs.outFile.getD []).length (initialNeedsHeader resume fs) start
          (save_checkpoint (append_rows s.pending s)).events
        = some ((outBase resume fs ++ stepped.map (enrichRow o retries col)).length,
            false, start + stepped.length)) := by
  obtain ⟨hcache, committed, pend, hsplit, hpend, hproc, hc0, hc1, hck⟩ := h
  have hpendne : pend ≠ [] := by
    intro hp
    rw [hp] at hpend
    simp at hpend
    exact hne hpend
  have hpendlen : 1 ≤ pend.length := by
    cases pend with
    | nil => exact absurd rfl hpendne
    | cons a l => simp
  have hlen : stepped.length = committed.length + pend.length := by
    rw [hsplit]; simp
  have hevents : (save_checkpoint (append_rows s.pending s)).events
      = s.events ++ [Event.append s.pending, Event.ckpt s.processed] := by
    rw [save_checkpoint_events, append_rows_events, append_rows_processed]
    simp
  have houtA := append_rows_outFile s.pending s
  have houtS := save_checkpoint_outFile (append_rows s.pending s)
  -- the committed file content in all cases
  have hout : (save_checkpoint (append_rows s.pending s)).outFile
      = some (outBase resume fs ++ stepped.map (enrichRow o retries col)) := by
    rw [houtS, houtA]
    by_cases hcom : committed = []
    · obtain ⟨ho, hnh, _⟩ := hc0 hcom
      have hst : stepped = pend := by rw [hsplit, hcom]; simp
      rw [hnh, ho]
      unfold outBase
      cases hnh0 : initialNeedsHeader resume fs
      · simp only [Bool.false_eq_true, if_false]
        rw [hpend, hst]
      · simp only [if_true]
        rw [hpend, hst]
        simp
    · obtain ⟨hnh, ho, _⟩ := hc1 hcom
      rw [hnh, ho]
      simp only [Bool.false_eq_true, if_false]
      rw [hpend, hsplit]
      simp
  refine ⟨?_, ?_, ?_, ?_, hout, ?_, ?_⟩
  · rw [save_checkpoint_cache, append_rows_cache]
  · rw [save_checkpoint_pending, append_rows_pending]
  · rw [save_checkpoint_processed, append_rows_processed]
  · rw [save_checkpoint_needsHeader, append_rows_needsHeader]
  · rw [save_checkpoint_ckptFile, append_rows_processed, hproc]
  · intro hsb
    have hrun := hck hsb
    rw [hevents, ckptChainRun_append, hrun]
    simp only [ckptChainRun]
    -- the length of the file after the append
    have hflen : (if s.needsHeader then s.pending.length
        else (s.outFile.getD []).length + s.pending.length)
        = (outBase resume fs).length + stepped.length := by
      by_cases hcom : committed = []
      · obtain ⟨ho, hnh, _⟩ := hc0 hcom
        have hst : stepped = pend := by rw [hsplit, hcom]; simp
        rw [hnh, ho]
        unfold outBase
        cases hnh0 : initialNeedsHeader resume fs
        · simp only [Bool.false_eq_true, if_false]
          rw [hpend, hst]
          simp
        · simp only [if_true]
          rw [hpend, hst]
          simp
      · obtain ⟨hnh, ho, _⟩ := hc1 hcom
        rw [hnh, ho]
        simp only [Bool.false_eq_true, if_false, Option.getD_some, List.length_append,
          List.length_map, hpend]
        omega
    have hstart0 : initialNeedsHeader resume fs = true → start = 0 := by
      intro hnh0
      unfold outBase at hsb
      rw [hnh0] at hsb
      simpa using hsb
    have hcond : start + committed.length < s.processed ∧
        s.processed ≤ (if s.needsHeader then s.pending.length
          else (s.outFile.getD []).length + s.pending.length) := by
      constructor
      · rw [hproc, hlen]
        omega
      · rw [hproc, hflen]
        have : start ≤ (outBase resume fs).length := hsb
        omega
    rw [if_pos hcond]
    rw [hflen, hproc]
    simp

theorem commitState_eq (X : PS) :
    save_checkpoint { X with pending := [] } =
      { save_checkpoint X with pending := [] } := rfl

/-- A periodic commit (append, clear pending, checkpoint) turns a state
satisfying `InvB` with a nonempty pending batch into a state satisfying
`InvB` with everything committed. -/
theorem InvB_commitState (o : String → Nat → Nat → FetchResp) (retries : Nat)
    (col : String) (fs : FS) (resume : Bool) (start : Nat) (u : PS)
    (stepped : List Row)
    (h : InvB o retries col fs resume start u stepped)
    (hne : u.pending ≠ []) :
    InvB o retries col fs resume start
      (save_checkpoint { append_rows u.pending u with pending := [] }) stepped := by
  obtain ⟨hcc, hpp, hpr, hnh, hout, hck, hrun⟩ :=
    InvB_commit_core o retries col fs resume start u stepped h hne
  obtain ⟨hcache, committed, pend, hsplit, hpend, hproc, _, _, _⟩ := h
  have hsteppedne : stepped ≠ [] := by
    have hpendne : pend ≠ [] := by
      intro hp
      rw [hp] at hpend
      simp at hpend
      exact hne hpend
    rw [hsplit]
    intro hs
    rcases List.append_eq_nil.mp hs with ⟨_, h2⟩
    exact hpendne h2
  rw [commitState_eq]
  constructor
  · show cacheOK o retries (save_checkpoint (append_rows u.pending u)).cache
    rw [hcc]
    exact hcache
  · refine ⟨stepped, [], by simp, by simp, ?_, ?_, ?_, ?_⟩
    · show (save_checkpoint (append_rows u.pending u)).processed = start + stepped.length
      rw [hpr, hproc]
    · intro hs
      exact absurd hs hsteppedne
    · intro _
      refine ⟨hnh, hout, ?_⟩
      show (save_checkpoint (append_rows u.pending u)).ckptFile
        = CkptFile.valid (start + stepped.length)
      exact hck
    · intro hsb
      have h2 := hrun hsb
      show ckptChainRun (fs.outFile.getD []).length (initialNeedsHeader resume fs) start
          (save_checkpoint (append_rows u.pending u)).events = _
      rw [h2]
      show _ = some ((((save_checkpoint (append_rows u.pending u)).outFile.getD []).length,
        (save_checkpoint (append_rows u.pending u)).needsHeader, start + stepped.length))
      rw [hout, hnh]
      simp

theorem InvB_step (o : String → Nat → Nat → FetchResp) (retries : Nat)
    (col : String) (fs : FS) (resume : Bool) (start : Nat) (B : Int)
    (s : PS) (row : Row) (stepped : List Row)
    (h : InvB o retries col fs resume start s stepped) :
    InvB o retries col fs resume start (step o retries col B s row)
      (stepped ++ [row]) := by
  obtain ⟨hcache, committed, pend, hsplit, hpend, hproc, hc0, hc1, hck⟩ := h
  unfold step
  dsimp only
  by_cases hn : (normalize_barcode (rowRawBarcode col row) == "") = true
  · -- sentinel key
    simp only [hn, if_true]
    have hE : enrichRow o retries col row
        = rowSet row "image_url" (Option.getD none "") := by
      simp only [enrichRow, hn, if_true]
    have hpre : InvB o retries col fs resume start
        { s with pending := s.pending ++ [rowSet row "image_url" (Option.getD none "")]
                 processed := s.processed + 1 } (stepped ++ [row]) := by
      refine ⟨hcache, committed, pend ++ [row],
        by rw [hsplit, List.append_assoc], ?_, ?_, hc0, hc1, hck⟩
      · show s.pending ++ [rowSet row "image_url" (Option.getD none "")]
          = (pend ++ [row]).map (enrichRow o retries col)
        rw [hpend, ← hE]
        simp
      · show s.processed + 1 = start + (stepped ++ [row]).length
        rw [hproc]
        simp [Nat.add_assoc]
    split
    · exact InvB_commitState o retries col fs resume start _ _ hpre (by simp)
    · exact hpre
  · have hn2 : (normalize_barcode (rowRawBarcode col row) == "") = false := by
      simpa using hn
    simp only [hn2, Bool.false_eq_true, if_false]
    rcases hfind : s.cache.find?
        (fun kv => kv.1 == normalize_barcode (rowRawBarcode col row)) with _ | kv
    · -- cache miss: lookup, insert, enrich
      simp only [hfind]
      have hE : enrichRow o retries col row = rowSet row "image_url"
          (Option.getD (find_image_url_zero_cost
            (fun a b => o (normalize_barcode (rowRawBarcode col row)) a b) retries).1.1 "") := by
        simp only [enrichRow, hn2, Bool.false_eq_true, if_false]
      have hpre : InvB o retries col fs resume start
          { s with
              cache := s.cache ++
                [(normalize_barcode (rowRawBarcode col row),
                  (find_image_url_zero_cost
                    (fun a b => o (normalize_barcode (rowRawBarcode col row)) a b) retries).1)]
              events := s.events ++ [Event.lookup (normalize_barcode (rowRawBarcode col row))]
              pending := s.pending ++
                [rowSet row "image_url"
                  (Option.getD (find_image_url_zero_cost
                    (fun a b => o (normalize_barcode (rowRawBarcode col row)) a b) retries).1.1 "")]
              processed := s.processed + 1 } (stepped ++ [row]) := by
      
        refine ⟨?_, committed, pend ++ [row],
          by rw [hsplit, List.append_assoc], ?_, ?_, hc0, hc1, ?_⟩
        · intro kv hkv
          rcases List.mem_append.mp hkv with h2 | h2
          · exact hcache kv h2
          · have h3 := List.mem_singleton.mp h2
            subst h3
            rfl
        · show s.pending ++ [rowSet row "image_url"
              (Option.getD (find_image_url_zero_cost
                (fun a b => o (normalize_barcode (rowRawBarcode col row)) a b) retries).1.1 "")]
            = (pend ++ [row]).map (enrichRow o retries col)
          rw [hpend, ← hE]
          simp
        · show s.processed + 1 = start + (stepped ++ [row]).length
          rw [hproc]
          simp [Nat.add_assoc]
        · intro hsb
          have h2 := hck hsb
          show ckptChainRun (fs.outFile.getD []).length (initialNeedsHeader resume fs) start
              (s.events ++ [Event.lookup (normalize_barcode (rowRawBarcode col row))]) = _
          rw [ckptChainRun_append, h2]
          rfl
      split
      · exact InvB_commitState o retries col fs resume start _ _ hpre (by simp)
      · exact hpre
    · -- cache hit: enrich from the cache
      simp only [hfind]
      have hkv1 : kv.1 = normalize_barcode (rowRawBarcode col row) := by
        simpa using List.find?_some hfind
      have hkv2 : kv.2 = (find_image_url_zero_cost (fun a b => o kv.1 a b) retries).1 :=
        hcache kv (List.mem_of_find?_eq_some hfind)
      have hE : enrichRow o retries col row
          = rowSet row "image_url" (Option.getD kv.2.1 "") := by
        simp only [enrichRow, hn2, Bool.false_eq_true, if_false]
        rw [hkv2, hkv1]
      have hpre : InvB o retries col fs resume start
          { s with pending := s.pending ++ [rowSet row "image_url" (Option.getD kv.2.1 "")]
                   processed := s.processed + 1 } (stepped ++ [row]) := by
        refine ⟨hcache, committed, pend ++ [row],
          by rw [hsplit, List.append_assoc], ?_, ?_, hc0, hc1, hck⟩
        · show s.pending ++ [rowSet row "image_url" (Option.getD kv.2.1 "")]
            = (pend ++ [row]).map (enrichRow o retries col)
          rw [hpend, ← hE]
          simp
        · show s.processed + 1 = start + (stepped ++ [row]).length
          rw [hproc]
          simp [Nat.add_assoc]
      split
      · exact InvB_commitState o retries col fs resume start _ _ hpre (by simp)
      · exact hpre

theorem InvB_foldl (o : String → Nat → Nat → FetchResp) (retries : Nat)
    (col : String) (fs : FS) (resume : Bool) (start : Nat) (B : Int) :
    ∀ (rows : List Row) (s : PS) (stepped : List Row),
      InvB o retries col fs resume start s stepped →
      InvB o retries col fs resume start (rows.foldl (step o retries col B) s)
        (stepped ++ rows) := by
  intro rows
  induction rows with
  | nil =>
    intro s stepped h
    simpa using h
  | cons r rs ih =>
    intro s stepped h
    have h2 := InvB_step o retries col fs resume start B s r stepped h
    simpa [List.append_assoc] using ih _ (stepped ++ [r]) h2

theorem InvB_initial (o : String → Nat → Nat → FetchResp) (retries : Nat)
    (col : String) (fs : FS) (resume : Bool) :
    InvB o retries col fs resume (loadCheckpoint resume fs.ckptFile)
      { cache := [], processed := loadCheckpoint resume fs.ckptFile, pending := [],
        needsHeader := initialNeedsHeader resume fs, outFile := fs.outFile,
        ckptFile := fs.ckptFile, events := [] } [] := by
  refine ⟨?_, [], [], rfl, rfl, by simp, fun _ => ⟨rfl, rfl, rfl⟩,
    fun hc => absurd rfl hc, fun _ => rfl⟩
  intro kv hkv
  cases hkv

/-- An empty remaining-row list leaves both files untouched and the trace
empty. -/
theorem process_csv_empty (o : String → Nat → Nat → FetchResp) (retries : Nat)
    (fieldnames : List String) (rows0 : List Row) (col : String)
    (limit : Option Int) (B : Int) (resume : Bool) (fs : FS)
    (h : col ∈ fieldnames)
    (he : (applyLimit limit rows0).drop (loadCheckpoint resume fs.ckptFile) = []) :
    process_csv o retries fieldnames rows0 col limit B resume fs =
      { error := none, outFile := fs.outFile, ckptFile := fs.ckptFile, events := [] } := by
  rw [process_csv_run_shape o retries fieldnames rows0 col limit B resume fs h]
  dsimp only
  rw [he]
  rfl

/-- A nonempty remaining-row list ends the run with every processed row
enriched and committed after the base, and the checkpoint at `start`
plus the processed count — whether the last batch went out through a
periodic commit or through the final flush. -/
theorem process_csv_committed (o : String → Nat → Nat → FetchResp) (retries : Nat)
    (fieldnames : List String) (rows0 : List Row) (col : String)
    (limit : Option Int) (B : Int) (resume : Bool) (fs : FS)
    (h : col ∈ fieldnames)
    (hne : (applyLimit limit rows0).drop (loadCheckpoint resume fs.ckptFile) ≠ []) :
    (process_csv o retries fieldnames rows0 col limit B resume fs).outFile
      = some (outBase resume fs ++
          ((applyLimit limit rows0).drop (loadCheckpoint resume fs.ckptFile)).map
            (enrichRow o retries col)) ∧
    (process_csv o retries fieldnames rows0 col limit B resume fs).ckptFile
      = CkptFile.valid (loadCheckpoint resume fs.ckptFile +
          ((applyLimit limit rows0).drop (loadCheckpoint resume fs.ckptFile)).length) := by
  rw [process_csv_run_shape o retries fieldnames rows0 col limit B resume fs h]
  dsimp only
  have hinv := InvB_foldl o retries col fs resume (loadCheckpoint resume fs.ckptFile) B
    ((applyLimit limit rows0).drop (loadCheckpoint resume fs.ckptFile)) _ []
    (InvB_initial o retries col fs resume)
  rw [List.nil_append] at hinv
  have hinv2 := hinv
  obtain ⟨hcache, committed, pend, hsplit, hpend, hproc, hc0, hc1, hck⟩ := hinv
  by_cases hp : pend = []
  · have hceq : committed
        = (applyLimit limit rows0).drop (loadCheckpoint resume fs.ckptFile) := by
      rw [hsplit, hp]
      simp
    have hcom : committed ≠ [] := by
      rw [hceq]
      exact hne
    obtain ⟨hnh, hout, hckf⟩ := hc1 hcom
    have hpend0 : (((applyLimit limit rows0).drop
        (loadCheckpoint resume fs.ckptFile)).foldl
          (step o retries col B)
          { cache := [], processed := loadCheckpoint resume fs.ckptFile, pending := [],
            needsHeader := initialNeedsHeader resume fs, outFile := fs.outFile,
            ckptFile := fs.ckptFile, events := [] }).pending = [] := by
      rw [hpend, hp]
      rfl
    rw [if_pos hpend0]
    rw [hceq] at hout hckf
    exact ⟨hout, hckf⟩
  · have hpendne : (((applyLimit limit rows0).drop
        (loadCheckpoint resume fs.ckptFile)).foldl
          (step o retries col B)
          { cache := [], processed := loadCheckpoint resume fs.ckptFile, pending := [],
            needsHeader := initialNeedsHeader resume fs, outFile := fs.outFile,
            ckptFile := fs.ckptFile, events := [] }).pending ≠ [] := by
      rw [hpend]
      simpa using hp
    rw [if_neg hpendne]
    obtain ⟨_, _, _, _, hout, hckf, _⟩ :=
      InvB_commit_core o retries col fs resume (loadCheckpoint resume fs.ckptFile) _ _
        hinv2 hpendne
    exact ⟨hout, hckf⟩

/-- The run's whole trace replays consistently: every checkpoint write
strictly exceeds the previous checkpoint value and never exceeds the
rows then present in the output file, and the replayed final file size
matches the actual final output file. -/
theorem process_csv_replay (o : String → Nat → Nat → FetchResp) (retries : Nat)
    (fieldnames : List String) (rows0 : List Row) (col : String)
    (limit : Option Int) (B : Int) (resume : Bool) (fs : FS)
    (h : col ∈ fieldnames)
    (hsb : loadCheckpoint resume fs.ckptFile ≤ (outBase resume fs).length) :
    ∃ nh2 last2,
      ckptChainRun (fs.outFile.getD []).length (initialNeedsHeader resume fs)
          (loadCheckpoint resume fs.ckptFile)
          (process_csv o retries fieldnames rows0 col limit B resume fs).events
        = some (((process_csv o retries fieldnames rows0 col limit B
              resume fs).outFile.getD []).length, nh2, last2) := by
  rw [process_csv_run_shape o retries fieldnames rows0 col limit B resume fs h]
  dsimp only
  have hinv := InvB_foldl o retries col fs resume (loadCheckpoint resume fs.ckptFile) B
    ((applyLimit limit rows0).drop (loadCheckpoint resume fs.ckptFile)) _ []
    (InvB_initial o retries col fs resume)
  rw [List.nil_append] at hinv
  have hinv2 := hinv
  obtain ⟨hcache, committed, pend, hsplit, hpend, hproc, hc0, hc1, hck⟩ := hinv
  split
  · exact ⟨_, _, hck hsb⟩
  · rename_i hpendne
    obtain ⟨_, _, _, _, hout, _, hrun⟩ :=
      InvB_commit_core o retries col fs resume (loadCheckpoint resume fs.ckptFile) _ _
        hinv2 hpendne
    refine ⟨false, loadCheckpoint resume fs.ckptFile +
      ((applyLimit limit rows0).drop (loadCheckpoint resume fs.ckptFile)).length, ?_⟩
    rw [hrun hsb, hout]
    simp

/-! ## C5: checkpoint monotonicity and bound -/

/-- C5.  For every run over a valid column whose resumed checkpoint does
not exceed the rows already in the output file (the state every earlier
run leaves behind; `0 ≤ 0` covers fresh runs), the trace replays with
every committed `processed_count` strictly greater than the previously
written one — starting from the resumed value — and never exceeding the
number of rows durably present in the output file at that commit; the
replayed final file size equals the actual final output file's. -/
theorem claim_c5_checkpoint_monotonicity (o : String → Nat → Nat → FetchResp)
    (retries : Nat) (fieldnames : List String) (rows0 : List Row)
    (col : String) (limit : Option Int) (B : Int) (resume : Bool) (fs : FS)
    (h : col ∈ fieldnames)
    (hck5 : loadCheckpoint resume fs.ckptFile ≤ (fs.outFile.getD []).length) :
    ∃ nh2 last2,
      ckptChainRun (fs.outFile.getD []).length (initialNeedsHeader resume fs)
          (loadCheckpoint resume fs.ckptFile)
          (process_csv o retries fieldnames rows0 col limit B resume fs).events
        = some (((process_csv o retries fieldnames rows0 col limit B
              resume fs).outFile.getD []).length, nh2, last2) := by
  apply process_csv_replay o retries fieldnames rows0 col limit B resume fs h
  unfold outBase
  cases hnh : initialNeedsHeader resume fs
  · simp only [Bool.false_eq_true, if_false]
    exact hck5
  · simp only [if_true, List.length_nil, Nat.le_zero]
    cases hr : resume
    · simp [loadCheckpoint]
    · rw [hr] at hnh hck5
      simp only [initialNeedsHeader, if_true] at hnh
      have hnone : fs.outFile = none := by
        cases hf : fs.outFile
        · rfl
        · rw [hf] at hnh
          simp at hnh
      rw [hnone] at hck5
      simpa using hck5

/-- Witness for `claim_c5_checkpoint_monotonicity`: fresh run, two rows,
commit interval 1. -/
theorem claim_c5_witness :
    ∃ nh2 last2,
      ckptChainRun ((({ outFile := none, ckptFile := CkptFile.absent } : FS).outFile.getD
            []).length)
          (initialNeedsHeader false { outFile := none, ckptFile := CkptFile.absent })
          (loadCheckpoint false
            ({ outFile := none, ckptFile := CkptFile.absent } : FS).ckptFile)
          (process_csv (fun _ _ _ => FetchResp.netError) 1 ["code"]
            [[("code", "1")], [("code", "2")]] "code" none 1 false
            { outFile := none, ckptFile := CkptFile.absent }).events
        = some (((process_csv (fun _ _ _ => FetchResp.netError) 1 ["code"]
              [[("code", "1")], [("code", "2")]] "code" none 1 false
              { outFile := none, ckptFile := CkptFile.absent }).outFile.getD []).length,
            nh2, last2) :=
  claim_c5_checkpoint_monotonicity (fun _ _ _ => FetchResp.netError) 1 ["code"]
    [[("code", "1")], [("code", "2")]] "code" none 1 false
    { outFile := none, ckptFile := CkptFile.absent } (by decide) (by decide)

/-! ## C10: enrichment column totality -/

/-- C10.  Every output row `process_csv` produces is the enrichment of
its input row: it carries an `image_url` column holding a string — the
resolved URL when the lookup succeeded, the empty string when the key is
the sentinel or the lookup resolved to not-found — and every column
other than `image_url` keeps its original value.  The first conjunct
identifies the final output file's data rows with the enriched processed
rows (after the append base). -/
theorem claim_c10_enrichment (o : String → Nat → Nat → FetchResp) (retries : Nat)
    (fieldnames : List String) (rows0 : List Row) (col : String)
    (limit : Option Int) (B : Int) (resume : Bool) (fs : FS)
    (h : col ∈ fieldnames) :
    ((process_csv o retries fieldnames rows0 col limit B resume fs).outFile
      = if ((applyLimit limit rows0).drop (loadCheckpoint resume fs.ckptFile)).isEmpty
        then fs.outFile
        else some (outBase resume fs ++
          ((applyLimit limit rows0).drop (loadCheckpoint resume fs.ckptFile)).map
            (enrichRow o retries col))) ∧
    (∀ row : Row,
      (normalize_barcode (rowRawBarcode col row) = "" →
        rowGet (enrichRow o retries col row) "image_url" = some "") ∧
      (normalize_barcode (rowRawBarcode col row) ≠ "" →
        rowGet (enrichRow o retries col row) "image_url"
          = some (((find_image_url_zero_cost
              (fun a b => o (normalize_barcode (rowRawBarcode col row)) a b)
                retries).1.1).getD "")) ∧
      (∀ c, c ≠ "image_url" →
        rowGet (enrichRow o retries col row) c = rowGet row c)) := by
  constructor
  · by_cases he : ((applyLimit limit rows0).drop
        (loadCheckpoint resume fs.ckptFile)).isEmpty = true
    · rw [if_pos he]
      have he2 : (applyLimit limit rows0).drop (loadCheckpoint resume fs.ckptFile) = [] := by
        simpa using he
      rw [process_csv_empty o retries fieldnames rows0 col limit B resume fs h he2]
    · have he2 : (applyLimit limit rows0).drop (loadCheckpoint resume fs.ckptFile) ≠ [] := by
        intro hh
        rw [hh] at he
        exact he rfl
      rw [if_neg he]
      exact (process_csv_committed o retries fieldnames rows0 col limit B resume fs h he2).1
  · intro row
    refine ⟨?_, ?_, ?_⟩
    · intro hk
      have hb : (normalize_barcode (rowRawBarcode col row) == "") = true := by simp [hk]
      simp only [enrichRow, hb, if_true]
      exact rowGet_rowSet_same row "image_url" _
    · intro hk
      have hb : (normalize_barcode (rowRawBarcode col row) == "") = false := by
        simpa using hk
      simp only [enrichRow, hb, Bool.false_eq_true, if_false]
      exact rowGet_rowSet_same row "image_url" _
    · intro c hc
      simp only [enrichRow]
      exact rowGet_rowSet_other row "image_url" _ c hc

/-- Witness for `claim_c10_enrichment`: sentinel key gives `image_url`
equal to the empty string, other columns are untouched. -/
theorem claim_c10_witness :
    rowGet (enrichRow (fun _ _ _ => FetchResp.netError) 1 "code" [("code", "x")])
        "image_url" = some "" ∧
    rowGet (enrichRow (fun _ _ _ => FetchResp.netError) 1 "code" [("code", "x")])
        "code" = rowGet [("code", "x")] "code" := by
  constructor
  · exact ((claim_c10_enrichment (fun _ _ _ => FetchResp.netError) 1 ["code"] [] "code"
      none 50 false { outFile := none, ckptFile := CkptFile.absent } (by decide)).2
      [("code", "x")]).1 (by decide)
  · exact ((claim_c10_enrichment (fun _ _ _ => FetchResp.netError) 1 ["code"] [] "code"
      none 50 false { outFile := none, ckptFile := CkptFile.absent } (by decide)).2
      [("code", "x")]).2.2 "code" (by decide)

/-! ## C4: corrupt-checkpoint degradation -/

theorem outBase_resume_true (fs : FS) : outBase true fs = fs.outFile.getD [] := by
  unfold outBase initialNeedsHeader
  cases hf : fs.outFile
  · simp [hf]
  · simp [hf]

/-- C4 counterexample.  A first run commits one enriched row; its
checkpoint then becomes corrupt; the `resume=true` rerun over the same
input never raises and restarts from 0, but because the output file
exists it is opened in append mode, and the rerun appends the same
enriched row again: the output file now contains a duplicate data row —
contradicting the claim that the degradation never produces duplicate
rows. -/
theorem claim_c4_counterexample :
    (process_csv (fun _ _ _ => FetchResp.netError) 2 ["code"] [[("code", "")]] "code"
        none 1 false { outFile := none, ckptFile := CkptFile.absent })
      = { error := none,
          outFile := some [[("code", ""), ("image_url", "")]],
          ckptFile := CkptFile.valid 1,
          events := [Event.append [[("code", ""), ("image_url", "")]], Event.ckpt 1] } ∧
    (process_csv (fun _ _ _ => FetchResp.netError) 2 ["code"] [[("code", "")]] "code"
        none 1 true
        { outFile := some [[("code", ""), ("image_url", "")]],
          ckptFile := CkptFile.corrupt }).outFile
      = some [[("code", ""), ("image_url", "")], [("code", ""), ("image_url", "")]] ∧
    ¬ ([[("code", ""), ("image_url", "")],
        [("code", ""), ("image_url", "")]] : List Row).Nodup := by
  refine ⟨by decide, by decide, by decide⟩

/-- C4 (amended).  With `resume=true` and a missing or corrupt
checkpoint file, checkpoint loading never raises and the run restarts
from `processed_count` 0, reprocessing every row; the output is opened
in append mode whenever the file already exists, so all reprocessed
enriched rows are appended after the pre-existing rows — previously
committed rows may therefore appear twice in the output (duplicates are
avoided only when the output file is absent, in which case the file is
truncated).  The original claim's "never produces duplicate data rows"
does not hold. -/
theorem claim_c4_corrupt_checkpoint (o : String → Nat → Nat → FetchResp)
    (retries : Nat) (fieldnames : List String) (rows0 : List Row)
    (col : String) (limit : Option Int) (B : Int) (fs : FS)
    (h : col ∈ fieldnames)
    (hcorrupt : fs.ckptFile = CkptFile.corrupt ∨ fs.ckptFile = CkptFile.absent) :
    loadCheckpoint true fs.ckptFile = 0 ∧
    (process_csv o retries fieldnames rows0 col limit B true fs).error = none ∧
    ((process_csv o retries fieldnames rows0 col limit B true fs).outFile
      = if (applyLimit limit rows0).isEmpty then fs.outFile
        else some (fs.outFile.getD [] ++
          (applyLimit limit rows0).map (enrichRow o retries col))) := by
  have hl : loadCheckpoint true fs.ckptFile = 0 := by
    rcases hcorrupt with hc | hc <;> rw [hc] <;> rfl
  have hdrop : (applyLimit limit rows0).drop (loadCheckpoint true fs.ckptFile)
      = applyLimit limit rows0 := by
    rw [hl]
    exact List.drop_zero _
  refine ⟨hl, ?_, ?_⟩
  · rw [process_csv_run_shape o retries fieldnames rows0 col limit B true fs h]
  · by_cases he : (applyLimit limit rows0).isEmpty = true
    · rw [if_pos he]
      have he2 : (applyLimit limit rows0).drop (loadCheckpoint true fs.ckptFile) = [] := by
        rw [hdrop]
        simpa using he
      rw [process_csv_empty o retries fieldnames rows0 col limit B true fs h he2]
    · have he2 : (applyLimit limit rows0).drop (loadCheckpoint true fs.ckptFile) ≠ [] := by
        rw [hdrop]
        intro hh
        rw [hh] at he
        exact he rfl
      rw [if_neg he]
      have hcom := (process_csv_committed o retries fieldnames rows0 col limit B true fs
        h he2).1
      rw [hdrop, outBase_resume_true] at hcom
      exact hcom

/-- Witness for `claim_c4_corrupt_checkpoint` at the counterexample run:
corrupt checkpoint, existing one-row output file. -/
theorem claim_c4_witness :
    loadCheckpoint true CkptFile.corrupt = 0 ∧
    (process_csv (fun _ _ _ => FetchResp.netError) 2 ["code"] [[("code", "")]] "code"
        none 1 true
        { outFile := some [[("code", ""), ("image_url", "")]],
          ckptFile := CkptFile.corrupt }).error = none ∧
    ((process_csv (fun _ _ _ => FetchResp.netError) 2 ["code"] [[("code", "")]] "code"
        none 1 true
        { outFile := some [[("code", ""), ("image_url", "")]],
          ckptFile := CkptFile.corrupt }).outFile
      = if (applyLimit none [[("code", "")]]).isEmpty
        then some [[("code", ""), ("image_url", "")]]
        else some ([[("code", ""), ("image_url", "")]] ++
          (applyLimit none [[("code", "")]]).map
            (enrichRow (fun _ _ _ => FetchResp.netError) 2 "code"))) :=
  claim_c4_corrupt_checkpoint (fun _ _ _ => FetchResp.netError) 2 ["code"]
    [[("code", "")]] "code" none 1
    { outFile := some [[("code", ""), ("image_url", "")]], ckptFile := CkptFile.corrupt }
    (by decide) (Or.inl rfl)

/-! ## C9: non-positive commit interval defers everything to one final flush -/

def onlyLookups (es : List Event) : Prop := ∀ e ∈ es, ∃ k, e = Event.lookup k

/-- Loop invariant for `checkpoint_every ≤ 0`: no commit ever fires
inside the loop, so the trace holds only lookups, the whole enrichment
sits in the pending batch, and both files still hold their pre-run
contents. -/
def InvB0 (o : String → Nat → Nat → FetchResp) (retries : Nat) (col : String)
    (fs : FS) (resume : Bool) (start : Nat) (s : PS) (stepped : List Row) : Prop :=
  cacheOK o retries s.cache ∧
  onlyLookups s.events ∧
  s.pending = stepped.map (enrichRow o retries col) ∧
  s.processed = start + stepped.length ∧
  s.outFile = fs.outFile ∧
  s.needsHeader = initialNeedsHeader resume fs ∧
  s.ckptFile = fs.ckptFile

theorem InvB0_step (o : String → Nat → Nat → FetchResp) (retries : Nat)
    (col : String) (fs : FS) (resume : Bool) (start : Nat) (B : Int) (hB : B ≤ 0)
    (s : PS) (row : Row) (stepped : List Row)
    (h : InvB0 o retries col fs resume start s stepped) :
    InvB0 o retries col fs resume start (step o retries col B s row)
      (stepped ++ [row]) := by
  obtain ⟨hcache, hev, hpend, hproc, hout, hnh, hck⟩ := h
  have hBneg : ¬ (0 < B) := by omega
  unfold step
  dsimp only
  by_cases hn : (normalize_barcode (rowRawBarcode col row) == "") = true
  · simp only [hn, if_true]
    rw [if_neg (fun hc => absurd hc.1 hBneg)]
    have hE : enrichRow o retries col row
        = rowSet row "image_url" (Option.getD none "") := by
      simp only [enrichRow, hn, if_true]
    refine ⟨hcache, hev, ?_, ?_, hout, hnh, hck⟩
    · show s.pending ++ [rowSet row "image_url" (Option.getD none "")]
        = (stepped ++ [row]).map (enrichRow o retries col)
      rw [hpend, ← hE]
      simp
    · show s.processed + 1 = start + (stepped ++ [row]).length
      rw [hproc]
      simp [Nat.add_assoc]
  · have hn2 : (normalize_barcode (rowRawBarcode col row) == "") = false := by
      simpa using hn
    simp only [hn2, Bool.false_eq_true, if_false]
    rcases hfind : s.cache.find?
        (fun kv => kv.1 == normalize_barcode (rowRawBarcode col row)) with _ | kv
    · simp only [hfind]
      rw [if_neg (fun hc => absurd hc.1 hBneg)]
      have hE : enrichRow o retries col row = rowSet row "image_url"
          (Option.getD (find_image_url_zero_cost
            (fun a b => o (normalize_barcode (rowRawBarcode col row)) a b) retries).1.1 "") := by
        simp only [enrichRow, hn2, Bool.false_eq_true, if_false]
      refine ⟨?_, ?_, ?_, ?_, hout, hnh, hck⟩
      · intro kv hkv
        rcases List.mem_append.mp hkv with h2 | h2
        · exact hcache kv h2
        · have h3 := List.mem_singleton.mp h2
          subst h3
          rfl
      · intro e he2
        rcases List.mem_append.mp he2 with h2 | h2
        · exact hev e h2
        · exact ⟨_, List.mem_singleton.mp h2⟩
      · show s.pending ++ [rowSet row "image_url"
            (Option.getD (find_image_url_zero_cost
              (fun a b => o (normalize_barcode (rowRawBarcode col row)) a b) retries).1.1 "")]
          = (stepped ++ [row]).map (enrichRow o retries col)
        rw [hpend, ← hE]
        simp
      · show s.processed + 1 = start + (stepped ++ [row]).length
        rw [hproc]
        simp [Nat.add_assoc]
    · simp only [hfind]
      rw [if_neg (fun hc => absurd hc.1 hBneg)]
      have hkv1 : kv.1 = normalize_barcode (rowRawBarcode col row) := by
        simpa using List.find?_some hfind
      have hkv2 : kv.2 = (find_image_url_zero_cost (fun a b => o kv.1 a b) retries).1 :=
        hcache kv (List.mem_of_find?_eq_some hfind)
      have hE : enrichRow o retries col row
          = rowSet row "image_url" (Option.getD kv.2.1 "") := by
        simp only [enrichRow, hn2, Bool.false_eq_true, if_false]
        rw [hkv2, hkv1]
      refine ⟨hcache, hev, ?_, ?_, hout, hnh, hck⟩
      · show s.pending ++ [rowSet row "image_url" (Option.getD kv.2.1 "")]
          = (stepped ++ [row]).map (enrichRow o retries col)
        rw [hpend, ← hE]
        simp
      · show s.processed + 1 = start + (stepped ++ [row]).length
        rw [hproc]
        simp [Nat.add_assoc]

theorem InvB0_foldl (o : String → Nat → Nat → FetchResp) (retries : Nat)
    (col : String) (fs : FS) (resume : Bool) (start : Nat) (B : Int) (hB : B ≤ 0) :
    ∀ (rows : List Row) (s : PS) (stepped : List Row),
      InvB0 o retries col fs resume start s stepped →
      InvB0 o retries col fs resume start (rows.foldl (step o retries col B) s)
        (stepped ++ rows) := by
  intro rows
  induction rows with
  | nil =>
    intro s stepped h
    simpa using h
  | cons r rs ih =>
    intro s stepped h
    have h2 := InvB0_step o retries col fs resume start B hB s r stepped h
    simpa [List.append_assoc] using ih _ (stepped ++ [r]) h2

theorem InvB0_initial (o : String → Nat → Nat → FetchResp) (retries : Nat)
    (col : String) (fs : FS) (resume : Bool) :
    InvB0 o retries col fs resume (loadCheckpoint resume fs.ckptFile)
      { cache := [], processed := loadCheckpoint resume fs.ckptFile, pending := [],
        needsHeader := initialNeedsHeader resume fs, outFile := fs.outFile,
        ckptFile := fs.ckptFile, events := [] } [] := by
  refine ⟨?_, ?_, rfl, by simp, rfl, rfl, rfl⟩
  · intro kv hkv
    cases hkv
  · intro e he
    cases he

/-- C9.  With `checkpoint_every ≤ 0` the modulo commit condition never
fires: no batch commit happens during the row loop; the whole trace is
adapter lookups followed by exactly one data append carrying every
enriched processed row, then exactly one checkpoint write whose
`processed_count` is the resumed start plus the number of rows
processed. -/
theorem claim_c9_single_final_commit (o : String → Nat → Nat → FetchResp)
    (retries : Nat) (fieldnames : List String) (rows0 : List Row)
    (col : String) (limit : Option Int) (B : Int) (resume : Bool) (fs : FS)
    (h : col ∈ fieldnames) (hB : B ≤ 0)
    (hne : (applyLimit limit rows0).drop (loadCheckpoint resume fs.ckptFile) ≠ []) :
    ∃ les : List Event,
      onlyLookups les ∧
      (process_csv o retries fieldnames rows0 col limit B resume fs).events
        = les ++
          [Event.append
            (((applyLimit limit rows0).drop (loadCheckpoint resume fs.ckptFile)).map
              (enrichRow o retries col)),
           Event.ckpt (loadCheckpoint resume fs.ckptFile +
            ((applyLimit limit rows0).drop (loadCheckpoint resume fs.ckptFile)).length)] := by
  rw [process_csv_run_shape o retries fieldnames rows0 col limit B resume fs h]
  dsimp only
  have hinv := InvB0_foldl o retries col fs resume (loadCheckpoint resume fs.ckptFile) B hB
    ((applyLimit limit rows0).drop (loadCheckpoint resume fs.ckptFile)) _ []
    (InvB0_initial o retries col fs resume)
  rw [List.nil_append] at hinv
  obtain ⟨hcache, hev, hpend, hproc, hout, hnh, hck⟩ := hinv
  have hpendne : (((applyLimit limit rows0).drop
      (loadCheckpoint resume fs.ckptFile)).foldl
        (step o retries col B)
        { cache := [], processed := loadCheckpoint resume fs.ckptFile, pending := [],
          needsHeader := initialNeedsHeader resume fs, outFile := fs.outFile,
          ckptFile := fs.ckptFile, events := [] }).pending ≠ [] := by
    rw [hpend]
    simpa using hne
  rw [if_neg hpendne]
  refine ⟨_, hev, ?_⟩
  rw [save_checkpoint_events, append_rows_events, append_rows_processed, hpend, hproc]
  simp

/-- Witness for `claim_c9_single_final_commit`: two rows, commit
interval 0 — one append and one checkpoint, both at the end. -/
theorem claim_c9_witness :
    ∃ les : List Event,
      onlyLookups les ∧
      (process_csv (fun _ _ _ => FetchResp.netError) 1 ["code"]
          [[("code", "1")], [("code", "2")]] "code" none 0 false
          { outFile := none, ckptFile := CkptFile.absent }).events
        = les ++
          [Event.append
            (((applyLimit none [[("code", "1")], [("code", "2")]]).drop
              (loadCheckpoint false CkptFile.absent)).map
              (enrichRow (fun _ _ _ => FetchResp.netError) 1 "code")),
           Event.ckpt (loadCheckpoint false CkptFile.absent +
            ((applyLimit none [[("code", "1")], [("code", "2")]]).drop
              (loadCheckpoint false CkptFile.absent)).length)] :=
  claim_c9_single_final_commit (fun _ _ _ => FetchResp.netError) 1 ["code"]
    [[("code", "1")], [("code", "2")]] "code" none 0 false
    { outFile := none, ckptFile := CkptFile.absent } (by decide) (by decide) (by decide)
